import Mathlib

set_option maxHeartbeats 1000000

/-!
Verification development for the bestsource audio engine
(src/audiosource.cpp): a shallow embedding of the track index, the
bounded LRU frame cache, the index serialization, the sample slicer and
the seek-and-verify engine, together with theorems that check the
specification claims against the embedded code.

All definitions are translated from audiosource.cpp.  The class
declarations (audiosource.h) are not part of the sources; the few
constants taken from them are modelled from the spec and marked as such
in their doc comments.
-/

/-- Sentinel used by the source for an unknown presentation timestamp,
the value of AV_NOPTS_VALUE (INT64_MIN). -/
def noPts : Int := -(2 ^ 63)

/-- Sentinel INT64_MIN, stored into the decoder position fields by
LWAudioDecoder.Seek. -/
def intMin : Int := -(2 ^ 63)

/-- One decoded audio frame as the engine sees it: the 16-byte content
digest (abstracted to a natural number, the engine only compares
digests), the sample count of the frame (AVFrame.nb_samples) and the
total payload byte size (the sum of the extended buffer sizes, computed
by Cache.CacheBlock from Frame.extended_buf). -/
structure DecFrame where
  hash : Nat
  nsamples : Int
  size : Nat
deriving DecidableEq

instance : Inhabited DecFrame := ⟨⟨0, 0, 0⟩⟩

/-- One record of the track index (AudioTrackIndex.FrameInfo): pts,
cumulative first-sample offset, sample count and content digest. -/
structure FrameInfo where
  pts : Int
  start : Int
  length : Int
  hash : Nat
deriving DecidableEq

instance : Inhabited FrameInfo := ⟨⟨0, 0, 0, 0⟩⟩

/-- Read the index record at an int64 position.  C++ indexes the vector
directly; a position outside the vector is undefined behaviour there and
yields the default record here. -/
def frameAt (idx : List FrameInfo) (i : Int) : FrameInfo :=
  if 0 ≤ i ∧ i.toNat < idx.length then idx.getD i.toNat default else default

/-! ## Frame cache (BestAudioSource::Cache)

A bounded-byte LRU list; the list front is the most recently used
entry, Data.back() is the least recently used one. -/

/-- Cache state: entry list (most recently used first), the running
byte total Size and the byte bound MaxSize. -/
structure Cache where
  data : List (Int × DecFrame)
  size : Nat
  maxSize : Nat
deriving DecidableEq

/-- Sum of the stored entry sizes. -/
def sumSizes (l : List (Int × DecFrame)) : Nat :=
  (l.map (fun e => e.2.size)).sum

/-- The eviction loop of Cache::ApplyMaxSize, acting on the reversed
entry list (least recently used first): pop entries while the total
exceeds the bound.  On an empty list the C++ loop could not terminate;
under the size invariant the total is then zero and the loop is never
entered. -/
def evictBack (max : Nat) : List (Int × DecFrame) → Nat → List (Int × DecFrame) × Nat
  | [], s => ([], s)
  | e :: rest, s => if s ≤ max then (e :: rest, s) else evictBack max rest (s - e.2.size)

/-- Cache::ApplyMaxSize: evict from the least recently used end until
the byte total is within MaxSize. -/
def applyMaxSize (c : Cache) : Cache :=
  let r := evictBack c.maxSize c.data.reverse c.size
  { data := r.1.reverse, size := r.2, maxSize := c.maxSize }

/-- Cache::Clear. -/
def clearCache (c : Cache) : Cache :=
  { data := [], size := 0, maxSize := c.maxSize }

/-- Cache::SetMaxSize: update the cap and apply eviction immediately. -/
def setMaxSize (c : Cache) (bytes : Nat) : Cache :=
  applyMaxSize { c with maxSize := bytes }

/-- The duplicate-removal scan at the top of Cache::CacheFrame: erase
the first entry with the same frame number, returning the new list and
the size of the removed entry (zero when none matched). -/
def cacheRemoveSame : List (Int × DecFrame) → Int → List (Int × DecFrame) × Nat
  | [], _ => ([], 0)
  | e :: rest, n =>
    if e.1 = n then (rest, e.2.size)
    else
      let r := cacheRemoveSame rest n
      (e :: r.1, r.2)

/-- Cache::CacheFrame: drop any older copy of the same frame, insert at
the most recently used end, then evict until the bound holds. -/
def cacheFrame (c : Cache) (n : Int) (f : DecFrame) : Cache :=
  let r := cacheRemoveSame c.data n
  applyMaxSize { data := (n, f) :: r.1, size := (c.size - r.2) + f.size, maxSize := c.maxSize }

/-- The search loop of Cache::GetFrame: find the first entry with the
given frame number, returning it together with the entries before and
after it. -/
def cacheFind : List (Int × DecFrame) → Int →
    Option ((Int × DecFrame) × List (Int × DecFrame) × List (Int × DecFrame))
  | [], _ => none
  | e :: rest, n =>
    if e.1 = n then some (e, [], rest)
    else (cacheFind rest n).map fun r => (r.1, e :: r.2.1, r.2.2)

/-- Cache::GetFrame: on a hit splice the entry to the most recently
used end and return a clone of the stored frame. -/
def cacheGet (c : Cache) (n : Int) : Option (DecFrame × Cache) :=
  (cacheFind c.data n).map fun r =>
    (r.1.2, { c with data := r.1 :: (r.2.1 ++ r.2.2) })

/-- The cache invariant claimed by the spec: the recorded total equals
the sum of the entry sizes, the total is within the bound, and frame
numbers are pairwise distinct. -/
def CacheWF (c : Cache) : Prop :=
  c.size = sumSizes c.data ∧ c.size ≤ c.maxSize ∧ (c.data.map Prod.fst).Nodup

instance (c : Cache) : Decidable (CacheWF c) := by
  unfold CacheWF; infer_instance

/-! ## Index serialization (WriteAudioTrackIndex / ReadAudioTrackIndex)

The byte-IO helpers (WriteInt, WriteInt64, WriteString, the BS header)
are not part of the sources.  Modelled from the spec: the cache file is
a header followed by little-endian fixed-width integers and
length-prefixed strings; here the file is a list of typed tokens, one
per helper call, which fixes exactly the information content the
helpers write. -/

/-- One serialized item of the cache file. -/
inductive Tok where
  | hdr : Bool → Tok
  | i32 : Int → Tok
  | i64 : Int → Tok
  | str : String → Tok
  | hashBytes : Nat → Tok
deriving DecidableEq

/-- The open parameters that WriteAudioTrackIndex and
ReadAudioTrackIndex consult: track, variable format flag, demuxer
options and the dynamic range compression scale.  DrcScale is a double
in the source; only its identity matters here, so it is carried as an
integer stand-in. -/
structure SourceConfig where
  track : Int
  variableFormat : Bool
  lavfOptions : List (String × String)
  drcScale : Int
deriving DecidableEq

/-- WriteAudioTrackIndex: header, track, variable format, the demuxer
options, the frame count and per frame the hash, pts and length.  The
drc scale is not written (the source marks this with a FIXME). -/
def writeAudioTrackIndex (cfg : SourceConfig) (frames : List FrameInfo) : List Tok :=
  [Tok.hdr false, Tok.i32 cfg.track, Tok.i32 (if cfg.variableFormat then 1 else 0),
    Tok.i32 cfg.lavfOptions.length] ++
  (cfg.lavfOptions.flatMap fun kv => [Tok.str kv.1, Tok.str kv.2]) ++
  [Tok.i64 frames.length] ++
  (frames.flatMap fun fi => [Tok.hashBytes fi.hash, Tok.i64 fi.pts, Tok.i64 fi.length])

/-- The option-reading loop of ReadAudioTrackIndex: read the given
number of key and value string pairs. -/
def readOptions : Nat → List Tok → Option (List (String × String) × List Tok)
  | 0, rest => some ([], rest)
  | n + 1, Tok.str k :: Tok.str v :: rest =>
    (readOptions n rest).map fun r => ((k, v) :: r.1, r.2)
  | _ + 1, _ => none

/-- The frame-reading loop of ReadAudioTrackIndex: read the given
number of (hash, pts, length) records, reconstructing Start as the
running sum of the lengths from the accumulator. -/
def readFrames : Nat → Int → List Tok → Option (List FrameInfo)
  | 0, _, _ => some []
  | n + 1, acc, Tok.hashBytes h :: Tok.i64 pts :: Tok.i64 len :: rest =>
    (readFrames n (acc + len) rest).map fun fs =>
      { pts := pts, start := acc, length := len, hash := h } :: fs
  | _ + 1, _, _ => none

/-- ReadAudioTrackIndex: check the header, compare track, variable
format and the demuxer options against the open parameters, then read
the frame records.  The drc scale is not compared (the source leaves
only a comment where the comparison would be). -/
def readAudioTrackIndex (file : List Tok) (cfg : SourceConfig) : Option (List FrameInfo) :=
  match file with
  | Tok.hdr false :: Tok.i32 t :: Tok.i32 v :: Tok.i32 optCount :: rest =>
    if t = cfg.track ∧ v = (if cfg.variableFormat then 1 else 0) ∧ 0 ≤ optCount then
      match readOptions optCount.toNat rest with
      | some (opts, rest2) =>
        if opts = cfg.lavfOptions then
          match rest2 with
          | Tok.i64 n :: rest3 =>
            if 0 ≤ n then readFrames n.toNat 0 rest3 else none
          | _ => none
        else none
      | none => none
    else none
  | _ => none

/-- The running-sum property of the Start fields that IndexTrack
establishes while building the index: frame zero starts at sample zero
and each later frame starts where the previous one ended. -/
def startsFrom (acc : Int) : List FrameInfo → Prop
  | [] => True
  | f :: rest => f.start = acc ∧ startsFrom (acc + f.length) rest

instance instDecStartsFrom (acc : Int) (l : List FrameInfo) : Decidable (startsFrom acc l) :=
  match l with
  | [] => isTrue trivial
  | f :: rest =>
    have : Decidable (startsFrom (acc + f.length) rest) := instDecStartsFrom _ rest
    inferInstanceAs (Decidable (f.start = acc ∧ startsFrom (acc + f.length) rest))

/-! ## Sample range lookup (BestAudioSource::GetFrameRangeBySamples) -/

/-- The result record FrameRange: first and last covering frame and the
first sample position of the first frame, all minus one when empty. -/
structure FrameRange where
  first : Int
  last : Int
  firstSamplePos : Int
deriving DecidableEq

/-- The linear scan of GetFrameRangeBySamples: index of the first frame
whose inclusive sample interval contains the position. -/
def findCover : List FrameInfo → Int → Option Nat
  | [], _ => none
  | f :: rest, s =>
    if f.start ≤ s ∧ s < f.start + f.length then some 0
    else (findCover rest s).map (· + 1)

/-- GetFrameRangeBySamples.  A scan that finds nothing leaves the field
at minus one; the source then fails its assertion and the final read of
Frames[Result.First] is undefined behaviour, rendered here through
frameAt with its default record. -/
def getFrameRangeBySamples (idx : List FrameInfo) (ns : Int) (start count : Int) : FrameRange :=
  if count ≤ 0 ∨ start ≥ ns then ⟨-1, -1, -1⟩
  else
    let first : Int :=
      if start < 0 then 0 else
        match findCover idx start with
        | some i => (i : Int)
        | none => -1
    let endPos := start + count
    let last : Int :=
      if endPos ≥ ns then (idx.length : Int) - 1 else
        match findCover idx (endPos - 1) with
        | some i => (i : Int)
        | none => -1
    ⟨first, last, (frameAt idx first).start⟩

/-! ## Sample slicer (GetPlanarAudio and helpers)

Caller buffers are byte lists; the per-channel output pointer Data[i]
is an offset into the corresponding buffer.  memset and memcpy become
writeBytes; bytes written outside a buffer fall outside the list and
are dropped, standing for writes into foreign memory. -/

/-- Write the source bytes into the buffer starting at the given
offset; positions outside the buffer are lost. -/
def writeBytes (buf : List Nat) (off : Int) (src : List Nat) : List Nat :=
  buf.mapIdx fun i b =>
    if off ≤ (i : Int) ∧ (i : Int) < off + src.length then src.getD ((i : Int) - off).toNat 0 else b

/-- One output channel of GetPlanarAudio: the caller buffer and the
current write offset (the Data[i] pointer). -/
structure ChanState where
  buf : List Nat
  ptr : Int
deriving DecidableEq

/-- The decoded payload of one frame as the slicer reads it: planar
frames carry one byte plane per channel, packed frames carry the single
interleaved region in the first entry. -/
structure AFrame where
  isPlanar : Bool
  channels : Nat
  nsamples : Int
  dat : List (List Nat)
deriving DecidableEq

instance : Inhabited AFrame := ⟨⟨true, 0, 0, []⟩⟩

/-- BestAudioSource::ZeroFillStart: for a negative start write that
many zero samples to every channel, advance the pointers and consume
the corresponding part of the request. -/
def zeroFillStart (bps : Int) (chans : List ChanState) (start count : Int) :
    List ChanState × Int × Int :=
  if start < 0 then
    let len := min count (-start)
    let byteLength := len * bps
    let chans2 := chans.map fun c =>
      { buf := writeBytes c.buf c.ptr (List.replicate byteLength.toNat 0),
        ptr := c.ptr + byteLength }
    (chans2, start + len, count - len)
  else (chans, start, count)

/-- BestAudioSource::ZeroFillEnd, translated literally: the byte offset
is min(NumSamples - Start, 0) times the sample size, the zeroed length
is the part of the request beyond NumSamples, and the pointers are not
advanced. -/
def zeroFillEnd (bps ns : Int) (chans : List ChanState) (start count : Int) :
    List ChanState × Int :=
  if start + count > ns then
    let len := min (start + count - ns) count
    let byteOffset := (min (ns - start) 0) * bps
    let chans2 := chans.map fun c =>
      { c with buf := writeBytes c.buf (c.ptr + byteOffset) (List.replicate (len * bps).toNat 0) }
    (chans2, count - len)
  else (chans, count)

/-- Read len bytes at a byte offset of a plane. -/
def extractBytes (l : List Nat) (off : Int) (len : Nat) : List Nat :=
  (l.drop off.toNat).take len

/-- The bytes UnpackChannels copies to destination channel c: for every
sample the bps bytes of that channel inside the interleaved source. -/
def gatherChannel (src : List Nat) (channels bps c len : Nat) : List Nat :=
  (List.range len).flatMap fun i => (src.drop ((i * channels + c) * bps)).take bps

/-- BestAudioSource::FillInFramePlanar: copy the covered part of one
frame into the channel buffers, planar frames plane by plane, packed
frames through UnpackChannels. -/
def fillInFramePlanar (bps : Int) (f : AFrame) (fss : Int) (chans : List ChanState)
    (start count : Int) : List ChanState × Int × Int :=
  if fss ≤ start ∧ start < fss + f.nsamples then
    let len := min count (f.nsamples - start + fss)
    if len = 0 then (chans, start, count)
    else if f.isPlanar then
      let byteLength := len * bps
      let byteOffset := (start - fss) * bps
      let chans2 := chans.mapIdx fun i c =>
        { buf := writeBytes c.buf c.ptr (extractBytes (f.dat.getD i []) byteOffset byteLength.toNat),
          ptr := c.ptr + byteLength }
      (chans2, start + len, count - len)
    else
      let byteOffset := (start - fss) * bps * f.channels
      let src := (f.dat.getD 0 []).drop byteOffset.toNat
      let chans2 := chans.mapIdx fun cidx c =>
        { buf := writeBytes c.buf c.ptr (gatherChannel src f.channels bps.toNat cidx len.toNat),
          ptr := c.ptr + len * bps }
      (chans2, start + len, count - len)
  else (chans, start, count)

/-- The frame loop of GetPlanarAudio: fetch every covering frame and
scatter it; the decoded payload of ordinal i is supplied through
content, standing for the engine producing the indexed frame. -/
def fillLoop (bps : Int) (content : List AFrame) (i steps : Nat) (fsp : Int)
    (chans : List ChanState) (start count : Int) : List ChanState × Int × Int :=
  match steps with
  | 0 => (chans, start, count)
  | steps + 1 =>
    let F := content.getD i default
    let r := fillInFramePlanar bps F fsp chans start count
    fillLoop bps content (i + 1) steps (fsp + F.nsamples) r.1 r.2.1 r.2.2

/-- Final state of a GetPlanarAudio call: the channel buffers and the
remaining count, which the source asserts to be zero. -/
structure PlanarResult where
  chans : List ChanState
  leftover : Int
deriving DecidableEq

/-- BestAudioSource::GetPlanarAudio: left zero fill, right zero fill,
range translation and the per-frame copy loop. -/
def getPlanarAudio (bps ns : Int) (idx : List FrameInfo) (content : List AFrame)
    (chans : List ChanState) (start count : Int) : PlanarResult :=
  let r1 := zeroFillStart bps chans start count
  let r2 := zeroFillEnd bps ns r1.1 r1.2.1 r1.2.2
  let range := getFrameRangeBySamples idx ns r1.2.1 r2.2
  if range.first = -1 then ⟨r2.1, r2.2⟩
  else
    let r3 := fillLoop bps content range.first.toNat (range.last - range.first + 1).toNat
      range.firstSamplePos r2.1 r1.2.1 r2.2
    ⟨r3.1, r3.2.2⟩

/-! ## Frame hasher (GetHash)

GetHash feeds the PCM payload to an MD5 context in a canonical order:
for planar formats the planes zero to channels minus one, each of
length bytes_per_sample times nb_samples, for packed formats the single
interleaved region.  The digest itself is computed by libavutil, which
is outside the sources. -/

/-- Modelled from the spec: the MD5-equivalent 16-byte digest computed
through libavutil (av_hash with md5).  The spec describes it as a
deterministic content digest used as frame identity, so it is modelled
as an ideal collision-free digest: the digest value determines the
hashed byte stream.  Under this model two digests are equal exactly
when the hashed streams are equal. -/
def md5Digest (stream : List Nat) : List Nat := stream

/-- A decoded frame as the hasher sees it: layout flag, the PCM content
as channels, each a list of samples, each a list of bytes, and a piece
of metadata (the pts) that the hasher must ignore. -/
structure HashFrame where
  isPlanar : Bool
  pcm : List (List (List Nat))
  pts : Int
deriving DecidableEq

/-- The byte stream hashed for a planar frame: the channel planes
concatenated in channel order. -/
def planarHashStream (pcm : List (List (List Nat))) : List Nat :=
  (pcm.map List.flatten).flatten

/-- The byte stream hashed for a packed frame: the interleaved region,
sample by sample, each sample holding the bytes of every channel in
channel order. -/
def packedHashStream (pcm : List (List (List Nat))) (samples : Nat) : List Nat :=
  (List.range samples).flatMap fun s => pcm.flatMap fun chan => chan.getD s []

/-- GetHash: digest the canonical byte stream of the frame payload.
The sample count of the frame is the length of the channel planes. -/
def getHashModel (f : HashFrame) (samples : Nat) : List Nat :=
  if f.isPlanar then md5Digest (planarHashStream f.pcm)
  else md5Digest (packedHashStream f.pcm samples)

/-! ## Decoder handle (LWAudioDecoder)

The demuxer and codec live behind the decoder handle.  Their observable
behaviour is a deterministic frame stream plus a seek map from a pts to
the stream position where decoding resumes (none meaning the backward
seek call fails); both are parameters of every engine run. -/

/-- The container as the decoder observes it. -/
structure AudioFile where
  stream : List DecFrame
  seekPos : Int → Option Nat

/-- LWAudioDecoder state: next stream position to emit, the bookkeeping
fields CurrentFrame and CurrentSample, DecodeSuccess and Seeked. -/
structure DecoderState where
  pos : Nat
  currentFrame : Int
  currentSample : Int
  decodeSuccess : Bool
  seeked : Bool
deriving DecidableEq

/-- A freshly opened decoder positioned at the stream start. -/
def freshDecoder : DecoderState := ⟨0, 0, 0, true, false⟩

/-- LWAudioDecoder::GetNextFrame: under DecodeSuccess pull the next
stream frame, advancing CurrentFrame and CurrentSample, or record the
end of the stream. -/
def decGetNextFrame (file : AudioFile) (d : DecoderState) : Option DecFrame × DecoderState :=
  if d.decodeSuccess then
    match file.stream.get? d.pos with
    | some f =>
      (some f,
        { d with
          pos := d.pos + 1
          currentFrame := d.currentFrame + 1
          currentSample := d.currentSample + f.nsamples })
    | none => (none, { d with decodeSuccess := false })
  else (none, d)

/-- LWAudioDecoder::SkipFrames: decode and drop the given number of
frames, stopping at the end of the stream. -/
def decSkipFrames (file : AudioFile) : DecoderState → Nat → DecoderState
  | d, 0 => d
  | d, k + 1 => if d.decodeSuccess then decSkipFrames file (decGetNextFrame file d).2 k else d

/-- LWAudioDecoder::Seek: flush, seek backward to the keyframe at or
before the pts, reset the position bookkeeping to INT64_MIN and record
the seek; a failing seek clears DecodeSuccess. -/
def decSeek (file : AudioFile) (d : DecoderState) (pts : Int) : DecoderState :=
  match file.seekPos pts with
  | some p =>
    { pos := p
      currentFrame := intMin
      currentSample := intMin
      decodeSuccess := true
      seeked := true }
  | none =>
    { d with
      currentFrame := intMin
      currentSample := intMin
      decodeSuccess := false
      seeked := true }

/-! ## Engine state (BestAudioSource) -/

/-- Modelled from the spec: the decoder pool capacity, MaxDecoders = 3
(the array length MaxVideoSources of the source headers). -/
def maxVideoSources : Nat := 3

/-- Modelled from the spec: RetrySeekAttempts = 3. -/
def retrySeekAttempts : Nat := 3

/-- Ghost trace of the observable decoder activity of one engine call:
a verification of a decoded frame against the index on the linear path
(seek flag, frame ordinal, decoded digest when a frame came out), the
linear loop ending without having produced the requested frame, and the
decoder ordinal assignment of an identified seek. -/
inductive Ev where
  | verify : Bool → Int → Option Nat → Ev
  | exhausted : Int → Ev
  | setOrdinal : Int → Ev
deriving DecidableEq

/-- The trace events after which the engine hands back a null frame:
a failed verification on a never-seeked decoder (no frame, or a digest
unlike the indexed one) and an exhausted linear loop. -/
def failEv (idx : List FrameInfo) : Ev → Bool
  | Ev.verify true _ _ => false
  | Ev.verify false _ none => true
  | Ev.verify false f (some h) => h != (frameAt idx f).hash
  | Ev.exhausted _ => true
  | Ev.setOrdinal _ => false

/-- The mutable engine state of BestAudioSource: the decoder slots with
their use counters and the allocation counter, the frame cache, the bad
seek locations, the linear mode latch and the seek preroll, plus the
ghost event log. -/
structure EngineState where
  decoders : List (Option DecoderState)
  lastUse : List Nat
  seqNum : Nat
  cache : Cache
  badSeek : List Int
  linearMode : Bool
  preRoll : Int
  log : List Ev
deriving DecidableEq

/-- Read a decoder slot. -/
def getSlot (s : EngineState) (i : Nat) : Option DecoderState := s.decoders.getD i none

/-- Write a decoder slot. -/
def setSlot (s : EngineState) (i : Nat) (d : Option DecoderState) : EngineState :=
  { s with decoders := s.decoders.set i d }

/-- Read a slot use counter. -/
def useOf (s : EngineState) (i : Nat) : Nat := s.lastUse.getD i 0

/-- DecoderLastUse[i] = DecoderSequenceNum++. -/
def bumpUse (s : EngineState) (i : Nat) : EngineState :=
  { s with lastUse := s.lastUse.set i s.seqNum, seqNum := s.seqNum + 1 }

/-- Append a ghost trace event. -/
def emit (e : Ev) (s : EngineState) : EngineState := { s with log := e :: s.log }

/-- BadSeekLocations.insert. -/
def addBad (i : Int) (s : EngineState) : EngineState := { s with badSeek := i :: s.badSeek }

/-- BestAudioSource::SetLinearMode: under the guard that the latch is
not yet set, latch it, clear the frame cache and drop every decoder. -/
def setLinearMode (s : EngineState) : EngineState :=
  if s.linearMode then s
  else
    { s with
      linearMode := true
      cache := clearCache s.cache
      decoders := List.replicate maxVideoSources none }

/-- The descending scan of BestAudioSource::GetSeekFrame, iterating
from the first argument down to ordinal 100. -/
def seekFrameLoop (idx : List FrameInfo) (bad : List Int) : Int → Nat → Int
  | _, 0 => -1
  | i, k + 1 =>
    if (frameAt idx i).pts ≠ noPts ∧ ¬ bad.contains i then i
    else seekFrameLoop idx bad (i - 1) k

/-- BestAudioSource::GetSeekFrame: the largest usable seek ordinal at
least 100 and at most n minus the preroll, or minus one. -/
def getSeekFrame (s : EngineState) (idx : List FrameInfo) (n : Int) : Int :=
  seekFrameLoop idx s.badSeek (n - s.preRoll) (n - s.preRoll - 99).toNat

/-- CurrentFrame of the decoder in a slot (only consulted for occupied
slots). -/
def fnOf (s : EngineState) (i : Nat) : Int :=
  match getSlot s i with
  | some d => d.currentFrame
  | none => 0

/-- HasSeeked of the decoder in a slot. -/
def decoderSeeked (s : EngineState) (i : Nat) : Bool :=
  match getSlot s i with
  | some d => d.seeked
  | none => false

/-- The slot scan of GetFrameInternal before seeking: the last empty
slot and the least recently used occupied slot. -/
def scanEmptyLRU (s : EngineState) : Int × Nat :=
  (List.range maxVideoSources).foldl
    (fun acc i =>
      let e := if (getSlot s i).isNone then (i : Int) else acc.1
      let lru := if (getSlot s i).isSome ∧ useOf s i < useOf s acc.2 then i else acc.2
      (e, lru))
    (-1, 0)

/-- The slot scan at the top of GetFrameLinearInternal: the occupied
slot with the largest ordinal at most n (never-seeked decoders only
when forced), the last empty slot and the least recently used slot. -/
def scanLinear (s : EngineState) (n : Int) (force : Bool) : Int × Int × Nat :=
  (List.range maxVideoSources).foldl
    (fun acc i =>
      let index :=
        if (getSlot s i).isSome ∧ (¬ force ∨ ¬ decoderSeeked s i) ∧ fnOf s i ≤ n ∧
            (acc.1 < 0 ∨ fnOf s acc.1.toNat < fnOf s i)
        then (i : Int) else acc.1
      let e := if (getSlot s i).isNone then (i : Int) else acc.2.1
      let lru := if (getSlot s i).isSome ∧ useOf s i < useOf s acc.2.2 then i else acc.2.2
      (index, e, lru))
    (-1, -1, 0)

/-- The check of step one of GetFrameInternal: some occupied slot holds
a decoder whose ordinal already lies between the seek frame and n. -/
def anyDecoderInZone (s : EngineState) (n seekFrame : Int) : Bool :=
  (List.range maxVideoSources).any fun i =>
    (getSlot s i).isSome && decide (fnOf s i ≤ n) && decide (fnOf s i ≥ seekFrame)

/-- The hash sequence match of SeekAndDecode for a decoded frame: every
start position i with i + j matching the j-th buffered digest for all
j, for i up to the frame count minus the buffer length (an ascending
list, mirroring the std set ordering).  The subtraction is truncated;
in the source it is a size_t subtraction whose wrap-around for a buffer
longer than the index would walk far out of bounds. -/
def fullMatches (idx : List FrameInfo) (m : List DecFrame) : List Nat :=
  (List.range (idx.length - m.length + 1)).filter fun i =>
    (List.range m.length).all fun j => (m.getD j default).hash == (frameAt idx (i + j : Nat)).hash

/-- The end-of-stream match of SeekAndDecode: only the tail position
frame count minus buffer length is tested. -/
def eosMatches (idx : List FrameInfo) (m : List DecFrame) : List Nat :=
  let base := idx.length - m.length
  if (List.range m.length).all (fun j => (m.getD j default).hash == (frameAt idx (base + j : Nat)).hash)
  then [base] else []

/-- The cache insertion loop of the identified branch of SeekAndDecode:
for every buffered frame within the preroll window of n, cache it, and
clone the one with ordinal n as the return frame. -/
def cacheMatchFrames (s : EngineState) (n : Int) (matchedN : Nat) (m : List DecFrame) :
    Option DecFrame × EngineState :=
  (List.range m.length).foldl
    (fun acc k =>
      let frameNumber : Int := (matchedN + k : Nat)
      if frameNumber ≥ n - s.preRoll then
        let acc1 := if frameNumber = n then (some (m.getD k default), acc.2) else acc
        (acc1.1, { acc1.2 with cache := cacheFrame acc1.2.cache frameNumber (m.getD k default) })
      else acc)
    (none, s)

/-! ## The seek-and-verify core

GetFrameLinearInternal, its decode loop, SeekAndDecode, its
identification loop and the shared retry block are mutually recursive
in the source; the recursion is bounded here by explicit fuel, with
none standing for a computation that did not finish within the fuel.
The defaulted parameters of GetFrameLinearInternal (SeekFrame = -1,
Depth = 0, ForceUnseeked = false) are modelled from the spec, which
writes the linear path as get_frame_linear(n, seek_target, depth,
force_unseeked); the call sites of the source pass exactly the
non-defaulted prefixes. -/

mutual

/-- The shared retry block (SeekAndDecode lines 546 to 562 and 604 to
622, GetFrameLinearInternal lines 744 to 759): record the seek frame as
bad; within the depth budget pick the next seek frame at least 100
frames further back and seek again, or decode linearly from scratch
when none is usable; past the budget latch linear mode.  The linear
restart after latching passes ForceUnseeked = true only at the
GetFrameLinearInternal call site, captured by forceOnLatch. -/
def retrySeek (file : AudioFile) (idx : List FrameInfo) (fuel : Nat) (s : EngineState)
    (n seekFrame : Int) (slot : Nat) (depth : Nat) (forceOnLatch : Bool) :
    Option (Option DecFrame × EngineState) :=
  match fuel with
  | 0 => none
  | fuel + 1 =>
    let s1 := addBad seekFrame s
    if depth < retrySeekAttempts then
      let nxt := getSeekFrame s1 idx (seekFrame - 100)
      if nxt < 100 then
        getFrameLinearInternal file idx fuel (setSlot s1 slot none) n (-1) 0 false
      else
        seekAndDecode file idx fuel s1 n nxt slot (depth + 1)
    else
      getFrameLinearInternal file idx fuel (setLinearMode s1) n (-1) 0 forceOnLatch
termination_by structural fuel

/-- BestAudioSource::SeekAndDecode: seek the slot decoder to the pts of
the seek frame (an unseekable stream latches linear mode), burn off
half the preroll, then run the identification loop. -/
def seekAndDecode (file : AudioFile) (idx : List FrameInfo) (fuel : Nat) (s : EngineState)
    (n seekFrame : Int) (slot : Nat) (depth : Nat) :
    Option (Option DecFrame × EngineState) :=
  match fuel with
  | 0 => none
  | fuel + 1 =>
    match getSlot s slot with
    | none => some (none, s)
    | some d =>
      let d1 := decSeek file d (frameAt idx seekFrame).pts
      if d1.decodeSuccess then
        let d2 := decSkipFrames file d1 (s.preRoll.toNat / 2)
        identLoop file idx fuel (setSlot s slot (some d2)) n seekFrame slot depth []
      else
        getFrameLinearInternal file idx fuel (setLinearMode (setSlot s slot (some d1)))
          n (-1) 0 false
termination_by structural fuel

/-- The identification loop of SeekAndDecode: decode one more frame and
append its digest to the match buffer; with no frame and an empty
buffer the seek frame is bad, otherwise hand the computed match set to
the decision step. -/
def identLoop (file : AudioFile) (idx : List FrameInfo) (fuel : Nat) (s : EngineState)
    (n seekFrame : Int) (slot : Nat) (depth : Nat) (m : List DecFrame) :
    Option (Option DecFrame × EngineState) :=
  match fuel with
  | 0 => none
  | fuel + 1 =>
    match getSlot s slot with
    | none => some (none, s)
    | some d =>
      let r := decGetNextFrame file d
      let s1 := setSlot s slot (some r.2)
      match r.1 with
      | none =>
        if m.isEmpty then
          retrySeek file idx fuel s1 n seekFrame slot depth false
        else
          identStep file idx fuel s1 n seekFrame slot depth m none (eosMatches idx m)
      | some f =>
        identStep file idx fuel s1 n seekFrame slot depth (m ++ [f]) (some f)
          (fullMatches idx (m ++ [f]))
termination_by structural fuel

/-- The per-iteration decision of SeekAndDecode: retry when no match
lies at or before n or the location is ambiguous beyond recovery; on a
unique match set the decoder ordinal to the match plus the buffer
length, cache the buffered frames and either return the requested frame
or continue linearly; on a recoverable ambiguity decode another frame. -/
def identStep (file : AudioFile) (idx : List FrameInfo) (fuel : Nat) (s : EngineState)
    (n seekFrame : Int) (slot : Nat) (depth : Nat) (m : List DecFrame) (f : Option DecFrame)
    (mset : List Nat) : Option (Option DecFrame × EngineState) :=
  match fuel with
  | 0 => none
  | fuel + 1 =>
    let suitable := mset.any fun i => decide ((i : Int) ≤ n)
    let undet := mset.length > 1 ∧ (f = none ∨ m.length ≥ 10)
    if ¬ suitable ∨ undet then
      retrySeek file idx fuel s n seekFrame slot depth false
    else if mset.length = 1 then
      let matchedN := mset.headD 0
      let ord : Int := (matchedN + m.length : Nat)
      let s1 := emit (Ev.setOrdinal ord) s
      let s2 :=
        match getSlot s1 slot with
        | some d =>
          setSlot s1 slot (some
            { d with
              currentFrame := ord
              currentSample := (frameAt idx ord).start })
        | none => s1
      let cr := cacheMatchFrames s2 n matchedN m
      match cr.1 with
      | some ret => some (some ret, cr.2)
      | none => getFrameLinearInternal file idx fuel cr.2 n seekFrame 0 false
    else
      identLoop file idx fuel s n seekFrame slot depth m
termination_by structural fuel

/-- BestAudioSource::GetFrameLinearInternal: pick the slot holding the
decoder with the largest ordinal at most n (never-seeked only under
ForceUnseeked), or open a fresh decoder in the last empty or least
recently used slot, then run the decode loop. -/
def getFrameLinearInternal (file : AudioFile) (idx : List FrameInfo) (fuel : Nat)
    (s : EngineState) (n seekFrame : Int) (depth : Nat) (force : Bool) :
    Option (Option DecFrame × EngineState) :=
  match fuel with
  | 0 => none
  | fuel + 1 =>
    let scan := scanLinear s n force
    let slot := if scan.1 < 0
      then (if scan.2.1 ≥ 0 then scan.2.1.toNat else scan.2.2)
      else scan.1.toNat
    let s1 := if scan.1 < 0 then setSlot s slot (some freshDecoder) else s
    let s2 := bumpUse s1 slot
    linearLoop file idx fuel s2 slot n seekFrame depth none
termination_by structural fuel

/-- The decode loop of GetFrameLinearInternal: while the slot decoder
sits at or before n with frames remaining, decode and verify inside the
preroll window (a digest mismatch or missing frame after a seek retries
the seek, without one it surfaces null), skip cheaply before the
window, and release the decoder at the end of the stream.  The skip arm
of the source carries the guard FrameNumber < N, which its position
makes always true for the non-negative prerolls SetSeekPreRoll admits;
it is dropped here. -/
def linearLoop (file : AudioFile) (idx : List FrameInfo) (fuel : Nat) (s : EngineState)
    (slot : Nat) (n seekFrame : Int) (depth : Nat) (ret : Option DecFrame) :
    Option (Option DecFrame × EngineState) :=
  match fuel with
  | 0 => none
  | fuel + 1 =>
    match getSlot s slot with
    | none => some (ret, if ret.isNone then emit (Ev.exhausted n) s else s)
    | some d =>
      if d.currentFrame ≤ n ∧ d.decodeSuccess then
        let frameNumber := d.currentFrame
        if frameNumber ≥ n - s.preRoll then
          let r := decGetNextFrame file d
          let s1 := emit (Ev.verify r.2.seeked frameNumber (r.1.map DecFrame.hash))
            (setSlot s slot (some r.2))
          match r.1 with
          | none =>
            if r.2.seeked then retrySeek file idx fuel s1 n seekFrame slot depth true
            else some (none, s1)
          | some f =>
            if (frameAt idx frameNumber).hash ≠ f.hash then
              if r.2.seeked then retrySeek file idx fuel s1 n seekFrame slot depth true
              else some (none, s1)
            else
              let ret2 := if frameNumber = n then some f else ret
              let s2 := { s1 with cache := cacheFrame s1.cache frameNumber f }
              let s3 := if r.2.decodeSuccess then s2 else setSlot s2 slot none
              linearLoop file idx fuel s3 slot n seekFrame depth ret2
        else
          let d2 := decSkipFrames file d (n - s.preRoll - frameNumber).toNat
          let s1 := if d2.decodeSuccess then setSlot s slot (some d2) else setSlot s slot none
          linearLoop file idx fuel s1 slot n seekFrame depth ret
      else
        some (ret, if ret.isNone then emit (Ev.exhausted n) s else s)
termination_by structural fuel

end

/-- BestAudioSource::GetFrameInternal: defer to the linear path in
linear mode or when no usable seek frame exists at least 100 frames in,
reuse a decoder already inside the seek window linearly, and otherwise
seek with a fresh or least recently used slot. -/
def getFrameInternal (file : AudioFile) (idx : List FrameInfo) (fuel : Nat) (s : EngineState)
    (n : Int) : Option (Option DecFrame × EngineState) :=
  match fuel with
  | 0 => none
  | fuel + 1 =>
    if s.linearMode then getFrameLinearInternal file idx fuel s n (-1) 0 false
    else
      let seekFrame := getSeekFrame s idx n
      if seekFrame < 100 then getFrameLinearInternal file idx fuel s n (-1) 0 false
      else if anyDecoderInZone s n seekFrame then
        getFrameLinearInternal file idx fuel s n (-1) 0 false
      else
        let scan := scanEmptyLRU s
        let slot := if scan.1 ≥ 0 then scan.1.toNat else scan.2
        let s1 := if (getSlot s slot).isNone then setSlot s slot (some freshDecoder) else s
        let s2 := bumpUse s1 slot
        seekAndDecode file idx fuel s2 n seekFrame slot 0

/-- BestAudioSource::GetFrame: null outside the frame range, otherwise
serve from the cache and only on a miss enter the engine, linearly when
the caller hints so. -/
def getFrame (file : AudioFile) (idx : List FrameInfo) (fuel : Nat) (s : EngineState)
    (n : Int) (linear : Bool) : Option (Option DecFrame × EngineState) :=
  match fuel with
  | 0 => none
  | fuel + 1 =>
    if n < 0 ∨ n ≥ (idx.length : Int) then some (none, s)
    else
      match cacheGet s.cache n with
      | some r => some (some r.1, { s with cache := r.2 })
      | none =>
        if linear then getFrameLinearInternal file idx fuel s n (-1) 0 false
        else getFrameInternal file idx fuel s n

/-! ## Index well-formedness and concrete scenario inputs -/

/-- Total sample count of an index, the sum of the frame lengths. -/
def sumLengths (l : List FrameInfo) : Int := (l.map FrameInfo.length).sum

/-- The shape every index of the source has after construction, by
IndexTrack or ReadAudioTrackIndex plus the constructor: at least one
frame, Start fields forming the running sum from zero, positive frame
lengths, and NumSamples equal to the last Start plus the last length,
hence to the total of the lengths. -/
def IndexWF (idx : List FrameInfo) (ns : Int) : Prop :=
  idx ≠ [] ∧ startsFrom 0 idx ∧ (∀ f ∈ idx, 0 < f.length) ∧ ns = sumLengths idx

instance (idx : List FrameInfo) (ns : Int) : Decidable (IndexWF idx ns) := by
  unfold IndexWF; infer_instance

instance : Inhabited ChanState := ⟨⟨[], 0⟩⟩

/-- Scenario for the right zero fill: one frame of twenty samples, one
byte per sample, mono. -/
def c1idx : List FrameInfo := [⟨0, 0, 20, 1⟩]

/-- The decoded payload of the single frame: bytes 100 to 119. -/
def c1content : List AFrame := [⟨true, 1, 20, [(List.range 20).map fun i => 100 + i]⟩]

/-- The caller buffer for twenty requested samples, prefilled with the
sentinel byte 7 to expose positions the call never writes. -/
def c1chans : List ChanState := [⟨List.replicate 20 7, 0⟩]

/-- The call get_planar(buf, 10, 20) against num_samples = 20: ten
in-range samples followed by ten out-of-range positions. -/
def c1result : PlanarResult := getPlanarAudio 1 20 c1idx c1content c1chans 10 20

/-- A stream of 102 one-sample frames with pairwise distinct digests. -/
def c2stream : List DecFrame := (List.range 102).map fun i => ⟨i, 1, 1⟩

/-- The matching index: frame i has pts i, start i, length one and
digest i. -/
def c2idx : List FrameInfo := (List.range 102).map fun (i : Nat) => ⟨(i : Int), (i : Int), 1, i⟩

/-- The container for the tail-match scenario: consistent with the
index, and a seek to pts 101 lands exactly at stream position 101. -/
def c2file : AudioFile := ⟨c2stream, fun pts => if pts = 101 then some 101 else none⟩

/-- The engine right after open: slot zero holds the opening decoder,
which has consumed one frame for the stream properties; preroll zero. -/
def c2state : EngineState :=
  ⟨[some ⟨1, 1, 1, true, false⟩, none, none], [0, 0, 0], 0, ⟨[], 0, 10 ^ 9⟩, [], false, 0, []⟩

/-- The request for the last frame, which seeks to ordinal 101 and
identifies the decoded tail frame uniquely. -/
def c2run : Option (Option DecFrame × EngineState) := getFrame c2file c2idx 10 c2state 101 false

/-- A one-frame index covering samples zero to three. -/
def c4idx : List FrameInfo := [⟨0, 0, 4, 5⟩]

/-- A three-frame stream whose middle frame digest 12 disagrees with
the index (11) but coincides with the digest the index records for
frame 2, as after an edit of the container under a stale cache file. -/
def c5stream : List DecFrame := [⟨10, 1, 1⟩, ⟨12, 1, 1⟩, ⟨12, 1, 1⟩]

/-- The stale index for the c5 scenario. -/
def c5idx : List FrameInfo := [⟨0, 0, 1, 10⟩, ⟨1, 1, 1, 11⟩, ⟨2, 2, 1, 12⟩]

/-- The container for the c5 scenario; seeking is never attempted. -/
def c5file : AudioFile := ⟨c5stream, fun _ => none⟩

/-- The engine right after open for the c5 scenario, preroll two. -/
def c5state : EngineState :=
  ⟨[some ⟨1, 1, 1, true, false⟩, none, none], [0, 0, 0], 0, ⟨[], 0, 10 ^ 9⟩, [], false, 2, []⟩

/-- The state after requesting frame 2 of the c5 scenario: the decoder
advanced over the mismatching frame, one failed verification logged,
null returned. -/
def c5final : EngineState :=
  ⟨[some ⟨2, 2, 2, true, false⟩, none, none], [0, 0, 0], 1, ⟨[], 0, 10 ^ 9⟩, [], false, 2,
    [Ev.verify false 1 (some 12)]⟩

/-- The c5 scenario but with linear mode already latched, for the latch
theorems. -/
def c7state : EngineState :=
  ⟨[some ⟨1, 1, 1, true, false⟩, none, none], [0, 0, 0], 0, ⟨[], 0, 10 ^ 9⟩, [], true, 2, []⟩

/-- The final state of the latched c7 run, identical to the c5 one
apart from the latch. -/
def c7final : EngineState :=
  ⟨[some ⟨2, 2, 2, true, false⟩, none, none], [0, 0, 0], 1, ⟨[], 0, 10 ^ 9⟩, [], true, 2,
    [Ev.verify false 1 (some 12)]⟩

/-- Equal PCM content for two channels and two samples of one byte. -/
def c3pcm : List (List (List Nat)) := [[[0], [1]], [[2], [3]]]

/-- Open parameters with drc scale zero. -/
def c6cfg0 : SourceConfig := ⟨0, false, [], 0⟩

/-- The same open parameters with drc scale one. -/
def c6cfg1 : SourceConfig := ⟨0, false, [], 1⟩

/-- A small index written under c6cfg0. -/
def c6frames : List FrameInfo := [⟨0, 0, 5, 42⟩]

/-- Open parameters for the round-trip witness. -/
def c9cfg : SourceConfig := ⟨1, true, [("key", "value")], 3⟩

/-- A two-frame index with running-sum starts for the round-trip
witness. -/
def c9frames : List FrameInfo := [⟨7, 0, 3, 21⟩, ⟨9, 3, 4, 22⟩]

/-- A concrete well-formed cache for the invariant witness. -/
def c8cache : Cache := ⟨[(0, ⟨1, 1, 4⟩), (1, ⟨2, 1, 6⟩)], 10, 16⟩

/-- An engine state whose cache holds frame one, for the cache-hit
witness. -/
def c10state : EngineState :=
  ⟨[some ⟨1, 1, 1, true, false⟩, none, none], [0, 0, 0], 0,
    ⟨[(0, ⟨9, 1, 4⟩), (1, ⟨77, 2, 4⟩)], 8, 100⟩, [], false, 2, []⟩

/-- The decoder slot array of the source has the fixed compile-time
length MaxVideoSources; every state of a real source satisfies this. -/
def SlotsWF (s : EngineState) : Prop := s.decoders.length = maxVideoSources

instance (s : EngineState) : Decidable (SlotsWF s) := by
  unfold SlotsWF; infer_instance

/-- What one completed engine call guarantees: the slot array keeps its
length, the linear mode latch is never cleared, and the call returns
null exactly when its freshly logged trace contains a failure event (a
failed verification on a never-seeked decoder, or an exhausted linear
loop). -/
def RunOk (idx : List FrameInfo) (s s2 : EngineState) (res : Option DecFrame) : Prop :=
  SlotsWF s2 ∧ (s.linearMode = true → s2.linearMode = true) ∧
  ∃ dl, s2.log = dl ++ s.log ∧ (res = none ↔ ∃ e ∈ dl, failEv idx e = true)

/-! ## Claim theorems: concrete evaluations -/

/-- C1: the code fails the claim.  For num_samples = 20 and the request
get_planar(buf, 10, 20) every out-of-range byte position (byte offset
10 and beyond, since (num_samples - start) times the sample size is 10)
should read zero, yet ZeroFillEnd computes its byte offset as
min(NumSamples - Start, 0) = 0, zeroes the first ten bytes, and the
frame copy then overwrites exactly those bytes with PCM: the call
leaves the tail bytes 10 to 19 untouched at the sentinel value 7.  The
in-range head does receive the decoded PCM bytes 110 to 119. -/
theorem c1_zero_fill_end_bug :
    c1result.leftover = 0 ∧
    (c1result.chans.getD 0 default).buf =
      ((List.range 10).map fun i => 110 + i) ++ List.replicate 10 7 ∧
    (c1result.chans.getD 0 default).buf.getD 15 0 = 7 := by
  decide

/-- C2: the code fails the claim.  Requesting ordinal 101 of a 102
frame track seeks to ordinal 101, decodes the last stream frame and
identifies it uniquely at MatchedN = 101 with one buffered digest, so
SeekAndDecode reads TrackIndex.Frames[MatchedN + 1] = Frames[102] of a
102 entry vector: the recorded assignment ordinal 102 is not below the
frame count, an out-of-bounds access. -/
theorem c2_tail_match_oob :
    c2run.map (fun r => (r.1, r.2.log)) = some (some ⟨101, 1, 1⟩, [Ev.setOrdinal 102]) ∧
    c2idx.length = 102 ∧ ¬ (102 < c2idx.length) := by
  decide

/-- C3 counterexample: two frames carrying the same two-channel
two-sample PCM content, one planar and one packed, hash differently,
because the planar stream concatenates the planes while the packed
stream interleaves the channels. -/
theorem c3_layout_dependent :
    getHashModel ⟨true, c3pcm, 7⟩ 2 ≠ getHashModel ⟨false, c3pcm, 7⟩ 2 := by
  decide

/-- C4 counterexample: on a well-formed one-frame index with four
samples, frame_range_for_samples(-1, 2) returns the non-empty result
(0, 0, 0), and its first_sample = 0 is not at most start = -1: the
claimed inequality fails for negative starts. -/
theorem c4_negative_start_violates :
    IndexWF c4idx 4 ∧
    (getFrameRangeBySamples c4idx 4 (-1) 2).first = 0 ∧
    (getFrameRangeBySamples c4idx 4 (-1) 2).firstSamplePos = 0 ∧
    ¬ ((getFrameRangeBySamples c4idx 4 (-1) 2).firstSamplePos ≤ -1) := by
  decide

/-- C5 counterexample: frame 2 of a three-frame track is requested, in
range, and the call returns null; the only frame the linear decode
produced has digest 12, which is exactly frames[2].hash, so no decoded
frame had a hash differing from frames[n].hash (the hypothesis the
claim makes equivalent to the null result).  The failure is a mismatch
at the preroll ordinal 1, whose indexed digest is 11. -/
theorem c5_null_without_matching_mismatch :
    getFrame c5file c5idx 10 c5state 2 false = some (none, c5final) ∧
    (0 : Int) ≤ 2 ∧ (2 : Int) < c5idx.length ∧
    c5final.log = [Ev.verify false 1 (some 12)] ∧
    (frameAt c5idx 2).hash = 12 := by
  decide

/-- C6: the code fails the claim.  An index written with drc scale 0 is
loaded successfully under drc scale 1 although all other parameters are
equal: ReadAudioTrackIndex never compares the drc scale, because
WriteAudioTrackIndex never serializes it (the FIXME in the source), so
no IndexMismatch rebuild happens. -/
theorem c6_drc_scale_not_checked :
    readAudioTrackIndex (writeAudioTrackIndex c6cfg0 c6frames) c6cfg1 = some c6frames ∧
    c6cfg0.drcScale ≠ c6cfg1.drcScale ∧
    c6cfg0.track = c6cfg1.track ∧ c6cfg0.variableFormat = c6cfg1.variableFormat ∧
    c6cfg0.lavfOptions = c6cfg1.lavfOptions := by
  decide

/-! ## Cache invariant (C8) -/

theorem sumSizes_cons (e : Int × DecFrame) (l : List (Int × DecFrame)) :
    sumSizes (e :: l) = e.2.size + sumSizes l := by
  simp [sumSizes]

theorem sumSizes_reverse (l : List (Int × DecFrame)) : sumSizes l.reverse = sumSizes l := by
  simp [sumSizes, List.sum_reverse]

/-- The eviction loop keeps the running total equal to the sum of the
remaining entries, ends within the bound, and only drops entries. -/
theorem evictBack_spec (max : Nat) (l : List (Int × DecFrame)) (s : Nat) (h : s = sumSizes l) :
    (evictBack max l s).2 = sumSizes (evictBack max l s).1 ∧
    (evictBack max l s).2 ≤ max ∧ (evictBack max l s).1.Sublist l := by
  induction l generalizing s with
  | nil =>
    subst h
    simp [evictBack, sumSizes]
  | cons e rest ih =>
    by_cases hle : s ≤ max
    · simp only [evictBack, if_pos hle]
      exact ⟨h, hle, List.Sublist.refl _⟩
    · have h2 : s - e.2.size = sumSizes rest := by
        subst h; rw [sumSizes_cons]; omega
      have hrec := ih (s - e.2.size) h2
      simpa [evictBack, hle] using ⟨hrec.1, hrec.2.1, hrec.2.2.cons e⟩

/-- ApplyMaxSize restores the bound, keeps the size accounting exact
and only drops entries. -/
theorem applyMaxSize_spec (c : Cache) (h : c.size = sumSizes c.data) :
    (applyMaxSize c).size = sumSizes (applyMaxSize c).data ∧
    (applyMaxSize c).size ≤ c.maxSize ∧
    (applyMaxSize c).data.Sublist c.data ∧
    (applyMaxSize c).maxSize = c.maxSize := by
  have h1 : c.size = sumSizes c.data.reverse := by rw [sumSizes_reverse]; exact h
  obtain ⟨ha, hb, hc⟩ := evictBack_spec c.maxSize c.data.reverse c.size h1
  refine ⟨?_, hb, ?_, rfl⟩
  · show _ = sumSizes (evictBack c.maxSize c.data.reverse c.size).1.reverse
    rw [sumSizes_reverse]; exact ha
  · have := hc.reverse
    simpa using this

/-- The duplicate-removal scan accounts its removed size exactly, only
drops keys, and under distinct keys leaves no copy of the removed key. -/
theorem cacheRemoveSame_spec (l : List (Int × DecFrame)) (n : Int) :
    sumSizes (cacheRemoveSame l n).1 + (cacheRemoveSame l n).2 = sumSizes l ∧
    ((cacheRemoveSame l n).1.map Prod.fst).Sublist (l.map Prod.fst) ∧
    ((l.map Prod.fst).Nodup →
      ((cacheRemoveSame l n).1.map Prod.fst).Nodup ∧
      n ∉ ((cacheRemoveSame l n).1.map Prod.fst)) := by
  induction l with
  | nil => simp [cacheRemoveSame, sumSizes]
  | cons e rest ih =>
    by_cases hc : e.1 = n
    · refine ⟨?_, ?_, ?_⟩
      · simp [cacheRemoveSame, hc, sumSizes_cons]; omega
      · simp only [cacheRemoveSame, if_pos hc]
        exact (List.Sublist.refl _).cons e.1
      · intro hnd
        simp only [cacheRemoveSame, if_pos hc]
        simp only [List.map_cons, List.nodup_cons] at hnd
        exact ⟨hnd.2, hc ▸ hnd.1⟩
    · obtain ⟨ih1, ih2, ih3⟩ := ih
      refine ⟨?_, ?_, ?_⟩
      · simp only [cacheRemoveSame, if_neg hc, sumSizes_cons]
        omega
      · simp only [cacheRemoveSame, if_neg hc, List.map_cons]
        exact ih2.cons₂ e.1
      · intro hnd
        simp only [List.map_cons, List.nodup_cons] at hnd
        obtain ⟨hni, hnd2⟩ := hnd
        obtain ⟨ihn, ihm⟩ := ih3 hnd2
        simp only [cacheRemoveSame, if_neg hc, List.map_cons, List.nodup_cons]
        refine ⟨⟨fun hmem => hni (ih2.subset hmem), ihn⟩, ?_⟩
        simp only [List.mem_cons]
        rintro (h1 | h2)
        · exact hc h1.symm
        · exact ihm h2

/-- C8: the cache invariant is preserved by every operation: after
CacheFrame, SetMaxSize and Clear the recorded total equals the sum of
the entry sizes, the total is at most MaxSize, and at most one entry
per frame ordinal exists (CacheFrame having first removed any entry
with the same ordinal). -/
theorem c8_cache_invariant (c : Cache) (n : Int) (f : DecFrame) (b : Nat) (h : CacheWF c) :
    CacheWF (cacheFrame c n f) ∧ CacheWF (setMaxSize c b) ∧ CacheWF (clearCache c) := by
  obtain ⟨hsum, _hle, hnd⟩ := h
  refine ⟨?_, ?_, ?_⟩
  · obtain ⟨r1, r2, r3⟩ := cacheRemoveSame_spec c.data n
    obtain ⟨rn, rm⟩ := r3 hnd
    have hcf : cacheFrame c n f =
        applyMaxSize
          { data := (n, f) :: (cacheRemoveSame c.data n).1,
            size := (c.size - (cacheRemoveSame c.data n).2) + f.size,
            maxSize := c.maxSize } := rfl
    have hinnersum :
        (Cache.mk ((n, f) :: (cacheRemoveSame c.data n).1)
          ((c.size - (cacheRemoveSame c.data n).2) + f.size) c.maxSize).size =
        sumSizes (Cache.mk ((n, f) :: (cacheRemoveSame c.data n).1)
          ((c.size - (cacheRemoveSame c.data n).2) + f.size) c.maxSize).data := by
      simp only [sumSizes_cons]
      omega
    obtain ⟨a1, a2, a3, a4⟩ := applyMaxSize_spec _ hinnersum
    rw [hcf]
    refine ⟨a1, ?_, ?_⟩
    · rw [a4]; exact a2
    · have hsub := a3.map Prod.fst
      refine hsub.nodup ?_
      simp only [List.map_cons, List.nodup_cons]
      exact ⟨rm, rn⟩
  · have hsm : setMaxSize c b = applyMaxSize { c with maxSize := b } := rfl
    obtain ⟨a1, a2, a3, a4⟩ := applyMaxSize_spec { c with maxSize := b } hsum
    rw [hsm]
    exact ⟨a1, by rw [a4]; exact a2, (a3.map Prod.fst).nodup hnd⟩
  · exact ⟨rfl, Nat.zero_le _, List.nodup_nil⟩

/-- Instantiation of the cache invariant at a concrete two-entry
well-formed cache. -/
theorem c8_cache_invariant_witness :
    CacheWF c8cache ∧
    (CacheWF (cacheFrame c8cache 1 ⟨3, 1, 9⟩) ∧ CacheWF (setMaxSize c8cache 5) ∧
      CacheWF (clearCache c8cache)) :=
  ⟨by decide, c8_cache_invariant c8cache 1 ⟨3, 1, 9⟩ 5 (by decide)⟩

/-! ## Index round trip (C9) -/

/-- The option-reading loop inverts the option serialization and leaves
the remaining tokens untouched. -/
theorem readOptions_roundTrip (opts : List (String × String)) (rest : List Tok) :
    readOptions opts.length ((opts.flatMap fun kv => [Tok.str kv.1, Tok.str kv.2]) ++ rest) =
      some (opts, rest) := by
  induction opts with
  | nil => simp [readOptions]
  | cons kv t ih =>
    obtain ⟨k, v⟩ := kv
    simp only [List.flatMap_cons, List.cons_append, List.length_cons, readOptions]
    show Option.map (fun r => ((k, v) :: r.1, r.2))
      (readOptions t.length ((t.flatMap fun kv => [Tok.str kv.1, Tok.str kv.2]) ++ rest)) = _
    rw [ih]
    rfl

/-- The frame-reading loop inverts the frame serialization whenever the
Start fields are the running sums from the accumulator. -/
theorem readFrames_roundTrip (frames : List FrameInfo) (acc : Int) (h : startsFrom acc frames) :
    readFrames frames.length acc
      (frames.flatMap fun fi => [Tok.hashBytes fi.hash, Tok.i64 fi.pts, Tok.i64 fi.length]) =
      some frames := by
  induction frames generalizing acc with
  | nil => simp [readFrames]
  | cons fi t ih =>
    obtain ⟨h1, h2⟩ := h
    obtain ⟨fpts, fstart, flen, fhash⟩ := fi
    simp only at h1 h2
    subst h1
    simp only [List.length_cons, List.flatMap_cons, List.cons_append, List.nil_append,
      readFrames]
    show Option.map _
      (readFrames t.length (fstart + flen)
        (t.flatMap fun fi => [Tok.hashBytes fi.hash, Tok.i64 fi.pts, Tok.i64 fi.length])) = _
    rw [ih _ h2]
    rfl

/-- C9: storing a built index and loading it back under the same track,
variable format and demux options returns exactly the built frame
records: same count and per frame the same pts, length, hash and Start,
the Start fields being reconstructed as the running sum on load. -/
theorem c9_index_round_trip (cfg : SourceConfig) (frames : List FrameInfo)
    (_hne : frames ≠ []) (h : startsFrom 0 frames) :
    readAudioTrackIndex (writeAudioTrackIndex cfg frames) cfg = some frames := by
  unfold writeAudioTrackIndex readAudioTrackIndex
  simp only [List.cons_append, List.nil_append, List.append_assoc]
  have hopts := readOptions_roundTrip cfg.lavfOptions
    ([Tok.i64 (frames.length : Int)] ++
      (frames.flatMap fun fi => [Tok.hashBytes fi.hash, Tok.i64 fi.pts, Tok.i64 fi.length]))
  simp only [List.cons_append, List.nil_append] at hopts
  simp only [if_pos (And.intro rfl (And.intro rfl (Int.ofNat_nonneg _))), Int.toNat_ofNat,
    hopts, if_pos rfl]
  simp only [if_pos (Int.ofNat_nonneg frames.length), Int.toNat_ofNat]
  exact readFrames_roundTrip frames 0 h

/-- Instantiation of the round trip at a concrete two-frame index. -/
theorem c9_index_round_trip_witness :
    readAudioTrackIndex (writeAudioTrackIndex c9cfg c9frames) c9cfg = some c9frames :=
  c9_index_round_trip c9cfg c9frames (by decide) (by decide)

/-! ## Frame hasher (C3) -/

/-- Reading a list of lists element by element over its index range
reproduces its concatenation. -/
theorem range_flatMap_getD (l : List (List Nat)) :
    ((List.range l.length).flatMap fun s => l.getD s []) = l.flatten := by
  induction l with
  | nil => simp
  | cons x xs ih =>
    rw [List.length_cons, List.range_succ_eq_map]
    simp only [List.flatMap_cons, List.getD_cons_zero, List.flatMap_map, Function.comp_def,
      List.getD_cons_succ, List.flatten_cons]
    rw [ih]

/-- C3 amended: the hasher is deterministic and a pure function of the
PCM payload (two frames of the same layout and content hash alike, any
metadata notwithstanding), and for mono frames the planar and packed
byte streams coincide, so there the hash is layout independent.  For
two or more channels the streams differ in general, as the recorded
counterexample shows. -/
theorem c3_hash_amended :
    (∀ (f g : HashFrame) (samples : Nat), f.isPlanar = g.isPlanar → f.pcm = g.pcm →
      getHashModel f samples = getHashModel g samples) ∧
    (∀ chan : List (List Nat), planarHashStream [chan] = packedHashStream [chan] chan.length) := by
  constructor
  · intro f g samples h1 h2
    unfold getHashModel
    rw [h1, h2]
  · intro chan
    unfold planarHashStream packedHashStream
    simp only [List.flatMap_cons, List.flatMap_nil, List.append_nil, List.map_cons,
      List.map_nil, List.flatten_cons, List.flatten_nil]
    rw [range_flatMap_getD]

/-- Instantiation of the amended hasher claim: the two-channel frame of
the counterexample hashed twice with different metadata, and a mono
frame in both layouts. -/
theorem c3_hash_amended_witness :
    getHashModel ⟨true, c3pcm, 7⟩ 2 = getHashModel ⟨true, c3pcm, 99⟩ 2 ∧
    planarHashStream [[[4], [5]]] = packedHashStream [[[4], [5]]] 2 :=
  ⟨c3_hash_amended.1 ⟨true, c3pcm, 7⟩ ⟨true, c3pcm, 99⟩ 2 rfl rfl,
    c3_hash_amended.2 [[4], [5]]⟩

/-! ## Sample range lookup (C4) -/

theorem sumLengths_cons (f : FrameInfo) (l : List FrameInfo) :
    sumLengths (f :: l) = f.length + sumLengths l := by
  simp [sumLengths]

/-- On a contiguous run of frames with positive lengths the scan finds
the covering frame of every position inside the run. -/
theorem findCover_some (l : List FrameInfo) (s : Int) :
    ∀ b : Int, startsFrom b l → (∀ f ∈ l, 0 < f.length) → b ≤ s → s < b + sumLengths l →
    ∃ i, findCover l s = some i ∧ i < l.length ∧
      (l.getD i default).start ≤ s ∧
      s < (l.getD i default).start + (l.getD i default).length := by
  induction l with
  | nil =>
    intro b _ _ h1 h2
    exfalso
    simp [sumLengths] at h2
    omega
  | cons f rest ih =>
    intro b hsf hp h1 h2
    obtain ⟨hstart, hsf2⟩ := hsf
    by_cases hc : s < f.start + f.length
    · have hcond : f.start ≤ s ∧ s < f.start + f.length := ⟨by rw [hstart]; exact h1, hc⟩
      refine ⟨0, ?_, by simp, by simpa using hcond.1, by simpa using hc⟩
      simp only [findCover]
      rw [if_pos hcond]
    · push_neg at hc
      have hp2 : ∀ g ∈ rest, 0 < g.length := fun g hg => hp g (List.mem_cons_of_mem f hg)
      have h1b : b + f.length ≤ s := by rw [hstart] at hc; omega
      have h2b : s < (b + f.length) + sumLengths rest := by
        rw [sumLengths_cons] at h2; omega
      obtain ⟨i, hfc, hlen, hle2, hlt2⟩ := ih (b + f.length) hsf2 hp2 h1b h2b
      have hcond : ¬ (f.start ≤ s ∧ s < f.start + f.length) := fun hx => absurd hc (not_le.mpr hx.2)
      refine ⟨i + 1, ?_, by simpa using hlen, by simpa using hle2, by simpa using hlt2⟩
      simp only [findCover]
      rw [if_neg hcond, hfc]
      rfl

/-- The non-empty branch of GetFrameRangeBySamples written out. -/
theorem getFrameRange_else (idx : List FrameInfo) (ns start count : Int)
    (h : ¬ (count ≤ 0 ∨ start ≥ ns)) :
    getFrameRangeBySamples idx ns start count =
      ⟨(if start < 0 then 0 else
          match findCover idx start with
          | some i => (i : Int)
          | none => -1),
        (if start + count ≥ ns then (idx.length : Int) - 1 else
          match findCover idx (start + count - 1) with
          | some i => (i : Int)
          | none => -1),
        (frameAt idx (if start < 0 then 0 else
          match findCover idx start with
          | some i => (i : Int)
          | none => -1)).start⟩ := by
  unfold getFrameRangeBySamples
  rw [if_neg h]

/-- C4 amended: the result is empty exactly when the request is empty
or starts past the stream; a non-empty result always reports
first_sample = frames[first].start; with a non-negative start the
covering inequality first_sample at most start below first_sample plus
frames[first].length holds; with a negative start the result clamps to
frame zero whose first sample is zero. -/
theorem c4_frame_range_amended (idx : List FrameInfo) (ns start count : Int)
    (hwf : IndexWF idx ns) :
    ((getFrameRangeBySamples idx ns start count).first = -1 ↔ count ≤ 0 ∨ start ≥ ns) ∧
    ((getFrameRangeBySamples idx ns start count).first ≠ -1 →
      (getFrameRangeBySamples idx ns start count).firstSamplePos =
        (frameAt idx (getFrameRangeBySamples idx ns start count).first).start) ∧
    ((getFrameRangeBySamples idx ns start count).first ≠ -1 → 0 ≤ start →
      (getFrameRangeBySamples idx ns start count).firstSamplePos ≤ start ∧
      start < (getFrameRangeBySamples idx ns start count).firstSamplePos +
        (frameAt idx (getFrameRangeBySamples idx ns start count).first).length) ∧
    ((getFrameRangeBySamples idx ns start count).first ≠ -1 → start < 0 →
      (getFrameRangeBySamples idx ns start count).first = 0 ∧
      (getFrameRangeBySamples idx ns start count).firstSamplePos = 0) := by
  obtain ⟨hne, hsf, hp, hns⟩ := hwf
  by_cases hearly : count ≤ 0 ∨ start ≥ ns
  · have hres : getFrameRangeBySamples idx ns start count = ⟨-1, -1, -1⟩ := by
      unfold getFrameRangeBySamples
      rw [if_pos hearly]
    rw [hres]
    exact ⟨iff_of_true rfl hearly, fun hx => absurd rfl hx, fun hx => absurd rfl hx,
      fun hx => absurd rfl hx⟩
  · rw [getFrameRange_else idx ns start count hearly]
    by_cases hneg : start < 0
    · obtain ⟨f0, rest, rfl⟩ : ∃ f0 rest, idx = f0 :: rest := by
        cases idx with
        | nil => exact absurd rfl hne
        | cons a b => exact ⟨a, b, rfl⟩
      have hstart0 : f0.start = 0 := hsf.1
      have hfa : frameAt (f0 :: rest) 0 = f0 := by
        simp [frameAt]
      refine ⟨?_, ?_, ?_, ?_⟩
      · rw [if_pos hneg]
        simp only []
        exact iff_of_false (by omega) hearly
      · intro _
        rw [if_pos hneg]
      · intro _ hge
        omega
      · intro _ _
        rw [if_pos hneg]
        simp [hfa, hstart0]
    · push_neg at hneg
      have hlt : start < ns := by
        rcases not_or.mp hearly with ⟨_, h2⟩
        omega
      have hbound : start < 0 + sumLengths idx := by rw [← hns]; omega
      obtain ⟨i, hfc, hlen, hle2, hlt2⟩ := findCover_some idx start 0 hsf hp hneg hbound
      have hfa : frameAt idx (i : Int) = idx.getD i default := by
        simp [frameAt, hlen]
      refine ⟨?_, ?_, ?_, ?_⟩
      · rw [if_neg (not_lt.mpr hneg), hfc]
        refine iff_of_false ?_ hearly
        simp only []
        omega
      · intro _
        rw [if_neg (not_lt.mpr hneg), hfc]
      · intro _ _
        rw [if_neg (not_lt.mpr hneg), hfc]
        simp only [hfa]
        exact ⟨hle2, hlt2⟩
      · intro _ hx
        omega
  
/-- Instantiation of the amended range lookup at the concrete one-frame
index, once inside the stream and once past its end. -/
theorem c4_frame_range_amended_witness :
    ((getFrameRangeBySamples c4idx 4 2 1).first = -1 ↔ (1 : Int) ≤ 0 ∨ (2 : Int) ≥ 4) ∧
    ((getFrameRangeBySamples c4idx 4 9 1).first = -1 ↔ (1 : Int) ≤ 0 ∨ (9 : Int) ≥ 4) :=
  ⟨(c4_frame_range_amended c4idx 4 2 1 (by decide)).1,
    (c4_frame_range_amended c4idx 4 9 1 (by decide)).1⟩

/-! ## Cache hit (C10) -/

/-- The search loop splits the entry list at the first entry carrying
the requested ordinal. -/
theorem cacheFind_spec (l : List (Int × DecFrame)) (n : Int) :
    ∀ (e : Int × DecFrame) (pre post : List (Int × DecFrame)),
    cacheFind l n = some (e, pre, post) →
    l = pre ++ e :: post ∧ e.1 = n ∧ ∀ x ∈ pre, x.1 ≠ n := by
  induction l with
  | nil =>
    intro e pre post h
    simp [cacheFind] at h
  | cons a rest ih =>
    intro e pre post h
    by_cases hc : a.1 = n
    · simp only [cacheFind, if_pos hc, Option.some.injEq, Prod.mk.injEq] at h
      obtain ⟨he, hpre, hpost⟩ := h
      subst he hpre hpost
      exact ⟨rfl, hc, by simp⟩
    · simp only [cacheFind, if_neg hc, Option.map_eq_some'] at h
      obtain ⟨r, hr, heq⟩ := h
      obtain ⟨r1, r2, r3⟩ := r
      simp only [Prod.mk.injEq] at heq
      obtain ⟨he, hpre, hpost⟩ := heq
      subst he hpre hpost
      obtain ⟨hl, hk, hpre2⟩ := ih r1 r2 r3 hr
      refine ⟨by rw [hl]; rfl, hk, ?_⟩
      intro x hx
      rcases List.mem_cons.mp hx with hxa | hxr
      · rw [hxa]; exact hc
      · exact hpre2 x hxr

/-- C10: for an in-range ordinal present in the frame cache, GetFrame
returns a clone of the cached entry for both values of the linear hint,
leaving the decoder slots, use counters, bad seek set, linear latch and
decode trace untouched; the only cache mutation is the splice of the
hit entry to the most recently used end, the byte total and bound kept. -/
theorem c10_cache_hit (file : AudioFile) (idx : List FrameInfo) (fuel : Nat) (s : EngineState)
    (n : Int) (hint : Bool) (e : Int × DecFrame) (pre post : List (Int × DecFrame))
    (hfind : cacheFind s.cache.data n = some (e, pre, post))
    (h0 : 0 ≤ n) (h1 : n < (idx.length : Int)) :
    getFrame file idx (fuel + 1) s n hint =
      some (some e.2, { s with cache := { s.cache with data := e :: (pre ++ post) } }) ∧
    s.cache.data = pre ++ e :: post ∧ e.1 = n ∧ (∀ x ∈ pre, x.1 ≠ n) ∧
    ({ s with cache := { s.cache with data := e :: (pre ++ post) } } : EngineState).decoders =
      s.decoders ∧
    ({ s with cache := { s.cache with data := e :: (pre ++ post) } } : EngineState).lastUse =
      s.lastUse ∧
    ({ s with cache := { s.cache with data := e :: (pre ++ post) } } : EngineState).badSeek =
      s.badSeek ∧
    ({ s with cache := { s.cache with data := e :: (pre ++ post) } } : EngineState).linearMode =
      s.linearMode ∧
    ({ s with cache := { s.cache with data := e :: (pre ++ post) } } : EngineState).log = s.log ∧
    ({ s with cache := { s.cache with data := e :: (pre ++ post) } } : EngineState).cache.size =
      s.cache.size ∧
    ({ s with cache := { s.cache with data := e :: (pre ++ post) } } : EngineState).cache.maxSize =
      s.cache.maxSize := by
  obtain ⟨hsplit, hkey, hpre⟩ := cacheFind_spec s.cache.data n e pre post hfind
  have hrange : ¬ (n < 0 ∨ n ≥ (idx.length : Int)) := by omega
  refine ⟨?_, hsplit, hkey, hpre, rfl, rfl, rfl, rfl, rfl, rfl, rfl⟩
  simp only [getFrame, if_neg hrange, cacheGet, hfind, Option.map_some']

/-! ## Engine bookkeeping lemmas -/

theorem setSlot_log (s : EngineState) (i : Nat) (d : Option DecoderState) :
    (setSlot s i d).log = s.log := rfl

theorem setSlot_linear (s : EngineState) (i : Nat) (d : Option DecoderState) :
    (setSlot s i d).linearMode = s.linearMode := rfl

theorem setSlot_len (s : EngineState) (i : Nat) (d : Option DecoderState) :
    (setSlot s i d).decoders.length = s.decoders.length := by
  simp [setSlot]

theorem bumpUse_fields (s : EngineState) (i : Nat) :
    (bumpUse s i).log = s.log ∧ (bumpUse s i).linearMode = s.linearMode ∧
    (bumpUse s i).decoders = s.decoders := ⟨rfl, rfl, rfl⟩

theorem emit_fields (e : Ev) (s : EngineState) :
    (emit e s).log = e :: s.log ∧ (emit e s).linearMode = s.linearMode ∧
    (emit e s).decoders = s.decoders := ⟨rfl, rfl, rfl⟩

theorem addBad_fields (i : Int) (s : EngineState) :
    (addBad i s).log = s.log ∧ (addBad i s).linearMode = s.linearMode ∧
    (addBad i s).decoders = s.decoders ∧ getSlot (addBad i s) = getSlot s :=
  ⟨rfl, rfl, rfl, rfl⟩

theorem setLinearMode_log (s : EngineState) : (setLinearMode s).log = s.log := by
  unfold setLinearMode
  split <;> rfl

theorem setLinearMode_linear (s : EngineState) : (setLinearMode s).linearMode = true := by
  unfold setLinearMode
  split
  · assumption
  · rfl

theorem setLinearMode_slots (s : EngineState) (h : SlotsWF s) : SlotsWF (setLinearMode s) := by
  unfold SlotsWF at h ⊢
  unfold setLinearMode
  split
  · exact h
  · simp

theorem getSlot_lt (s : EngineState) (slot : Nat) (h : (getSlot s slot).isSome = true) :
    slot < s.decoders.length := by
  by_contra hc
  push_neg at hc
  unfold getSlot at h
  rw [List.getD_eq_default _ _ hc] at h
  simp at h

theorem getSlot_setSlot_self (s : EngineState) (slot : Nat) (d : Option DecoderState)
    (h : slot < s.decoders.length) : getSlot (setSlot s slot d) slot = d := by
  unfold getSlot setSlot
  rw [List.getD_eq_getElem _ _ (by simpa using h)]
  simp

/-- A fold whose step preserves a projection leaves it unchanged. -/
theorem foldl_proj_eq {α β γ : Type} (f : β → α → β) (proj : β → γ)
    (hf : ∀ b a, proj (f b a) = proj b) (l : List α) (b : β) :
    proj (List.foldl f b l) = proj b := by
  induction l generalizing b with
  | nil => rfl
  | cons a t ih => rw [List.foldl_cons, ih, hf]

theorem cacheMatchFrames_state (s : EngineState) (n : Int) (matchedN : Nat) (m : List DecFrame) :
    (cacheMatchFrames s n matchedN m).2.log = s.log ∧
    (cacheMatchFrames s n matchedN m).2.linearMode = s.linearMode ∧
    (cacheMatchFrames s n matchedN m).2.decoders = s.decoders := by
  have h := foldl_proj_eq
    (fun (acc : Option DecFrame × EngineState) (k : Nat) =>
      let frameNumber : Int := (matchedN + k : Nat)
      if frameNumber ≥ n - s.preRoll then
        let acc1 := if frameNumber = n then (some (m.getD k default), acc.2) else acc
        (acc1.1, { acc1.2 with cache := cacheFrame acc1.2.cache frameNumber (m.getD k default) })
      else acc)
    (fun acc => (acc.2.log, acc.2.linearMode, acc.2.decoders))
    (by
      intro b a
      dsimp only
      split
      · split <;> rfl
      · rfl)
    (List.range m.length) (none, s)
  refine ⟨?_, ?_, ?_⟩
  · exact congrArg (fun t => t.1) h
  · exact congrArg (fun t => t.2.1) h
  · exact congrArg (fun t => t.2.2) h

theorem cacheMatchFrames_log (s : EngineState) (n : Int) (mn : Nat) (m : List DecFrame) :
    (cacheMatchFrames s n mn m).2.log = s.log :=
  (cacheMatchFrames_state s n mn m).1

theorem cacheMatchFrames_linear (s : EngineState) (n : Int) (mn : Nat) (m : List DecFrame) :
    (cacheMatchFrames s n mn m).2.linearMode = s.linearMode :=
  (cacheMatchFrames_state s n mn m).2.1

theorem cacheMatchFrames_decoders (s : EngineState) (n : Int) (mn : Nat) (m : List DecFrame) :
    (cacheMatchFrames s n mn m).2.decoders = s.decoders :=
  (cacheMatchFrames_state s n mn m).2.2

theorem decoders_setSlot (s : EngineState) (i : Nat) (d : Option DecoderState) :
    (setSlot s i d).decoders = s.decoders.set i d := rfl

theorem decoders_emit (e : Ev) (s : EngineState) : (emit e s).decoders = s.decoders := rfl

theorem decoders_cacheSet (s : EngineState) (c : Cache) :
    ({ s with cache := c } : EngineState).decoders = s.decoders := rfl

theorem scanEmptyLRU_bounds (s : EngineState) :
    ((scanEmptyLRU s).1 ≥ 0 → (scanEmptyLRU s).1.toNat < maxVideoSources) ∧
    (scanEmptyLRU s).2 < maxVideoSources := by
  have hr : List.range maxVideoSources = [0, 1, 2] := by decide
  unfold scanEmptyLRU
  rw [hr]
  simp only [List.foldl_cons, List.foldl_nil]
  constructor
  · intro hge
    split_ifs at hge ⊢ <;> simp_all [maxVideoSources]
  · split_ifs <;> simp [maxVideoSources]

/-- Composition of a silent or non-failing state advance before a
completed run. -/
theorem RunOk.pre (idx : List FrameInfo) {s s1 s2 : EngineState} {res : Option DecFrame}
    (dl1 : List Ev) (hlog : s1.log = dl1 ++ s.log)
    (hnf : ∀ e ∈ dl1, failEv idx e = false)
    (hlin : s.linearMode = true → s1.linearMode = true)
    (h : RunOk idx s1 s2 res) : RunOk idx s s2 res := by
  obtain ⟨hw, hm, dl, hl, hiff⟩ := h
  refine ⟨hw, fun ht => hm (hlin ht), dl ++ dl1, by rw [hl, hlog, List.append_assoc], ?_⟩
  rw [hiff]
  constructor
  · rintro ⟨e, he, hf⟩
    exact ⟨e, List.mem_append_left _ he, hf⟩
  · rintro ⟨e, he, hf⟩
    rcases List.mem_append.mp he with h1 | h2
    · exact ⟨e, h1, hf⟩
    · rw [hnf e h2] at hf
      cases hf

theorem SlotsWF_setSlot {s : EngineState} (i : Nat) (d : Option DecoderState)
    (h : SlotsWF s) : SlotsWF (setSlot s i d) := by
  unfold SlotsWF at h ⊢
  rw [setSlot_len]
  exact h

theorem getSlot_isSome_setSlot_some {s : EngineState} (slot : Nat) (d : DecoderState)
    (h : (getSlot s slot).isSome = true) :
    (getSlot (setSlot s slot (some d)) slot).isSome = true := by
  rw [getSlot_setSlot_self _ _ _ (getSlot_lt _ _ h)]
  rfl

theorem getSlot_emit (e : Ev) (s : EngineState) (i : Nat) :
    getSlot (emit e s) i = getSlot s i := rfl

/-- What every completed call of the five mutually recursive engine
functions guarantees, proved simultaneously by induction on the fuel:
the slot array keeps its length, the linear latch is never cleared, and
a null result coincides with a failure event in the fresh part of the
trace. -/
theorem engineRunOk (file : AudioFile) (idx : List FrameInfo) : ∀ fuel : Nat,
    (∀ s n sf slot depth fol res s2, SlotsWF s → (getSlot s slot).isSome = true →
      retrySeek file idx fuel s n sf slot depth fol = some (res, s2) → RunOk idx s s2 res) ∧
    (∀ s n sf slot depth res s2, SlotsWF s → (getSlot s slot).isSome = true →
      seekAndDecode file idx fuel s n sf slot depth = some (res, s2) → RunOk idx s s2 res) ∧
    (∀ s n sf slot depth m res s2, SlotsWF s → (getSlot s slot).isSome = true →
      identLoop file idx fuel s n sf slot depth m = some (res, s2) → RunOk idx s s2 res) ∧
    (∀ s n sf slot depth m f mset res s2, SlotsWF s → (getSlot s slot).isSome = true →
      identStep file idx fuel s n sf slot depth m f mset = some (res, s2) → RunOk idx s s2 res) ∧
    (∀ s n sf depth force res s2, SlotsWF s →
      getFrameLinearInternal file idx fuel s n sf depth force = some (res, s2) →
      RunOk idx s s2 res) ∧
    (∀ s slot n sf depth ret res s2, SlotsWF s →
      linearLoop file idx fuel s slot n sf depth ret = some (res, s2) → RunOk idx s s2 res) := by
  intro fuel
  induction fuel with
  | zero =>
    refine ⟨?_, ?_, ?_, ?_, ?_, ?_⟩
    · intro s n sf slot depth fol res s2 _ _ h
      simp [retrySeek] at h
    · intro s n sf slot depth res s2 _ _ h
      simp [seekAndDecode] at h
    · intro s n sf slot depth m res s2 _ _ h
      simp [identLoop] at h
    · intro s n sf slot depth m f mset res s2 _ _ h
      simp [identStep] at h
    · intro s n sf depth force res s2 _ h
      simp [getFrameLinearInternal] at h
    · intro s slot n sf depth ret res s2 _ h
      simp [linearLoop] at h
  | succ fuel ih =>
    obtain ⟨ihR, ihS, ihI, ihT, ihL, ihP⟩ := ih
    refine ⟨?_, ?_, ?_, ?_, ?_, ?_⟩
    · -- retrySeek
      intro s n sf slot depth fol res s2 hw hsl h
      simp only [retrySeek] at h
      split at h
      · split at h
        · refine RunOk.pre idx [] ?_ (by simp) ?_ (ihL _ _ _ _ _ _ _ ?_ h)
          · rfl
          · exact fun ht => ht
          · exact SlotsWF_setSlot _ _ hw
        · refine RunOk.pre idx [] ?_ (by simp) ?_ (ihS _ _ _ _ _ _ _ ?_ ?_ h)
          · rfl
          · exact fun ht => ht
          · exact hw
          · exact hsl
      · refine RunOk.pre idx [] ?_ (by simp) ?_ (ihL _ _ _ _ _ _ _ ?_ h)
        · simp [setLinearMode_log, addBad]
        · exact fun _ => setLinearMode_linear _
        · exact setLinearMode_slots _ hw
    · -- seekAndDecode
      intro s n sf slot depth res s2 hw hsl h
      simp only [seekAndDecode] at h
      split at h
      · rename_i heq
        rw [heq] at hsl
        simp at hsl
      · rename_i d heq
        split at h
        · refine RunOk.pre idx [] ?_ (by simp) ?_ (ihI _ _ _ _ _ _ _ _ ?_ ?_ h)
          · rfl
          · exact fun ht => ht
          · exact SlotsWF_setSlot _ _ hw
          · exact getSlot_isSome_setSlot_some _ _ hsl
        · refine RunOk.pre idx [] ?_ (by simp) ?_ (ihL _ _ _ _ _ _ _ ?_ h)
          · simp [setLinearMode_log, setSlot, setSlot_log]
          · exact fun _ => setLinearMode_linear _
          · exact setLinearMode_slots _ (SlotsWF_setSlot _ _ hw)
    · -- identLoop
      intro s n sf slot depth m res s2 hw hsl h
      simp only [identLoop] at h
      split at h
      · rename_i heq
        rw [heq] at hsl
        simp at hsl
      · rename_i d heq
        split at h
        · -- decoder returned no frame
          split at h
          · refine RunOk.pre idx [] ?_ (by simp) ?_ (ihR _ _ _ _ _ _ _ _ ?_ ?_ h)
            · rfl
            · exact fun ht => ht
            · exact SlotsWF_setSlot _ _ hw
            · exact getSlot_isSome_setSlot_some _ _ hsl
          · refine RunOk.pre idx [] ?_ (by simp) ?_ (ihT _ _ _ _ _ _ _ _ _ _ ?_ ?_ h)
            · rfl
            · exact fun ht => ht
            · exact SlotsWF_setSlot _ _ hw
            · exact getSlot_isSome_setSlot_some _ _ hsl
        · refine RunOk.pre idx [] ?_ (by simp) ?_ (ihT _ _ _ _ _ _ _ _ _ _ ?_ ?_ h)
          · rfl
          · exact fun ht => ht
          · exact SlotsWF_setSlot _ _ hw
          · exact getSlot_isSome_setSlot_some _ _ hsl
    · -- identStep
      intro s n sf slot depth m f mset res s2 hw hsl h
      simp only [identStep] at h
      split at h
      · refine RunOk.pre idx [] ?_ (by simp) ?_ (ihR _ _ _ _ _ _ _ _ ?_ ?_ h)
        · rfl
        · exact fun ht => ht
        · exact hw
        · exact hsl
      · split at h
        · -- unique match
          split at h
          · -- the requested frame was among the buffered ones
            rename_i ret hcr
            simp only [Option.some.injEq, Prod.mk.injEq] at h
            obtain ⟨h1, h2⟩ := h
            subst h1 h2
            refine ⟨?_, ?_, [Ev.setOrdinal ((mset.headD 0 + m.length : Nat) : Int)], ?_, ?_⟩
            · unfold SlotsWF at hw ⊢
              rw [cacheMatchFrames_decoders]
              split
              · rw [setSlot_len]
                exact hw
              · exact hw
            · intro ht
              rw [cacheMatchFrames_linear]
              split
              · rw [setSlot_linear]
                exact ht
              · exact ht
            · rw [cacheMatchFrames_log]
              split
              · rw [setSlot_log]
                rfl
              · rfl
            · simp [failEv]
          · -- continue linearly from the identified position
            rename_i hcr
            refine RunOk.pre idx [Ev.setOrdinal ((mset.headD 0 + m.length : Nat) : Int)] ?_
              (by simp [failEv]) ?_ (ihL _ _ _ _ _ _ _ ?_ h)
            · rw [cacheMatchFrames_log]
              split
              · rw [setSlot_log]
                rfl
              · rfl
            · intro ht
              rw [cacheMatchFrames_linear]
              split
              · rw [setSlot_linear]
                exact ht
              · exact ht
            · unfold SlotsWF at hw ⊢
              rw [cacheMatchFrames_decoders]
              split
              · rw [setSlot_len]
                exact hw
              · exact hw
        · -- several candidates remain, decode another frame
          refine RunOk.pre idx [] ?_ (by simp) ?_ (ihI _ _ _ _ _ _ _ _ ?_ ?_ h)
          · rfl
          · exact fun ht => ht
          · exact hw
          · exact hsl
    · -- getFrameLinearInternal
      intro s n sf depth force res s2 hw h
      simp only [getFrameLinearInternal] at h
      refine RunOk.pre idx [] ?_ (by simp) ?_ (ihP _ _ _ _ _ _ _ _ ?_ h)
      · split <;> rfl
      · intro ht
        split <;> exact ht
      · split
        · exact SlotsWF_setSlot _ _ hw
        · exact hw
    · -- linearLoop
      intro s slot n sf depth ret res s2 hw h
      simp only [linearLoop] at h
      split at h
      · -- empty slot: the loop exits
        split at h
        · rename_i hret
          rw [Option.isNone_iff_eq_none] at hret
          subst hret
          simp only [Option.some.injEq, Prod.mk.injEq] at h
          obtain ⟨h1, h2⟩ := h
          subst h1 h2
          refine ⟨hw, fun ht => ht, [Ev.exhausted n], rfl, ?_⟩
          simp [failEv]
        · rename_i hret
          simp only [Option.some.injEq, Prod.mk.injEq] at h
          obtain ⟨h1, h2⟩ := h
          subst h1 h2
          refine ⟨hw, fun ht => ht, [], rfl, ?_⟩
          constructor
          · intro hcon
            rw [hcon] at hret
            simp at hret
          · rintro ⟨e, he, _⟩
            exact absurd he (List.not_mem_nil e)
      · rename_i d heq
        split at h
        · -- the decoder sits at or before n with frames remaining
          split at h
          · -- inside the preroll window: decode and verify
            split at h
            · -- no frame came out
              rename_i hF
              split at h
              · -- the decoder had seeked: retry
                rename_i hsk
                refine RunOk.pre idx
                  [Ev.verify (decGetNextFrame file d).2.seeked d.currentFrame
                    (Option.map DecFrame.hash (decGetNextFrame file d).1)]
                  ?_ ?_ ?_ (ihR _ _ _ _ _ _ _ _ ?_ ?_ h)
                · rfl
                · intro e he
                  simp only [List.mem_singleton] at he
                  subst he
                  simp [failEv, hsk]
                · exact fun ht => ht
                · exact SlotsWF_setSlot _ _ hw
                · rw [getSlot_emit]
                  exact getSlot_isSome_setSlot_some _ _ (by rw [heq]; rfl)
              · -- never seeked: unrecoverable null
                rename_i hsk
                simp only [Option.some.injEq, Prod.mk.injEq] at h
                obtain ⟨h1, h2⟩ := h
                subst h1 h2
                refine ⟨SlotsWF_setSlot _ _ hw, fun ht => ht,
                  [Ev.verify (decGetNextFrame file d).2.seeked d.currentFrame
                    (Option.map DecFrame.hash (decGetNextFrame file d).1)], rfl, ?_⟩
                simp only [true_iff]
                refine ⟨_, List.mem_singleton_self _, ?_⟩
                simp only [Bool.not_eq_true] at hsk
                simp [failEv, hsk, hF]
            · -- a frame came out
              rename_i f hF
              split at h
              · -- digest mismatch
                split at h
                · -- seeked: retry
                  rename_i hne hsk
                  refine RunOk.pre idx
                    [Ev.verify (decGetNextFrame file d).2.seeked d.currentFrame
                      (Option.map DecFrame.hash (decGetNextFrame file d).1)]
                    ?_ ?_ ?_ (ihR _ _ _ _ _ _ _ _ ?_ ?_ h)
                  · rfl
                  · intro e he
                    simp only [List.mem_singleton] at he
                    subst he
                    simp [failEv, hsk]
                  · exact fun ht => ht
                  · exact SlotsWF_setSlot _ _ hw
                  · rw [getSlot_emit]
                    exact getSlot_isSome_setSlot_some _ _ (by rw [heq]; rfl)
                · -- never seeked: unrecoverable null
                  rename_i hne hsk
                  simp only [Option.some.injEq, Prod.mk.injEq] at h
                  obtain ⟨h1, h2⟩ := h
                  subst h1 h2
                  refine ⟨SlotsWF_setSlot _ _ hw, fun ht => ht,
                    [Ev.verify (decGetNextFrame file d).2.seeked d.currentFrame
                      (Option.map DecFrame.hash (decGetNextFrame file d).1)], rfl, ?_⟩
                  simp only [true_iff]
                  refine ⟨_, List.mem_singleton_self _, ?_⟩
                  simp only [Bool.not_eq_true] at hsk
                  simp only [hF, Option.map_some', hsk]
                  simp [failEv, bne_iff_ne, Ne.symm hne]
              · -- digest matches: cache and continue
                rename_i hne
                refine RunOk.pre idx
                  [Ev.verify (decGetNextFrame file d).2.seeked d.currentFrame
                    (Option.map DecFrame.hash (decGetNextFrame file d).1)]
                  ?_ ?_ ?_ (ihP _ _ _ _ _ _ _ _ ?_ h)
                · split <;> rfl
                · intro e he
                  simp only [List.mem_singleton] at he
                  subst he
                  push_neg at hne
                  cases hsk : (decGetNextFrame file d).2.seeked <;>
                    simp [failEv, hF, hne, hsk]
                · intro ht
                  split <;> exact ht
                · unfold SlotsWF at hw ⊢
                  split <;>
                    simp only [decoders_setSlot, decoders_emit, decoders_cacheSet,
                      List.length_set] <;>
                    exact hw
          · -- before the preroll window: skip cheaply
            refine RunOk.pre idx [] ?_ (by simp) ?_ (ihP _ _ _ _ _ _ _ _ ?_ h)
            · split <;> rfl
            · intro ht
              split <;> exact ht
            · split
              · exact SlotsWF_setSlot _ _ hw
              · exact SlotsWF_setSlot _ _ hw
        · -- the loop condition fails: exit
          split at h
          · rename_i hret
            rw [Option.isNone_iff_eq_none] at hret
            subst hret
            simp only [Option.some.injEq, Prod.mk.injEq] at h
            obtain ⟨h1, h2⟩ := h
            subst h1 h2
            refine ⟨hw, fun ht => ht, [Ev.exhausted n], rfl, ?_⟩
            simp [failEv]
          · rename_i hret
            simp only [Option.some.injEq, Prod.mk.injEq] at h
            obtain ⟨h1, h2⟩ := h
            subst h1 h2
            refine ⟨hw, fun ht => ht, [], rfl, ?_⟩
            constructor
            · intro hcon
              rw [hcon] at hret
              simp at hret
            · rintro ⟨e, he, _⟩
              exact absurd he (List.not_mem_nil e)

theorem getSlot_bumpUse (s : EngineState) (i j : Nat) :
    getSlot (bumpUse s i) j = getSlot s j := rfl

/-- GetFrameInternal inherits the run guarantees of the engine core. -/
theorem getFrameInternal_runOk (file : AudioFile) (idx : List FrameInfo) :
    ∀ fuel s n res s2, SlotsWF s → getFrameInternal file idx fuel s n = some (res, s2) →
    RunOk idx s s2 res := by
  intro fuel s n res s2 hw h
  cases fuel with
  | zero => simp [getFrameInternal] at h
  | succ fuel =>
    obtain ⟨ihR, ihS, ihI, ihT, ihL, ihP⟩ := engineRunOk file idx fuel
    simp only [getFrameInternal] at h
    split at h
    · exact ihL _ _ _ _ _ _ _ hw h
    · split at h
      · exact ihL _ _ _ _ _ _ _ hw h
      · split at h
        · exact ihL _ _ _ _ _ _ _ hw h
        · refine RunOk.pre idx [] ?_ (by simp) ?_ (ihS _ _ _ _ _ _ _ ?_ ?_ h)
          · split <;> split <;> rfl
          · intro ht
            split <;> split <;> exact ht
          · split <;> split <;> first
              | exact SlotsWF_setSlot _ _ hw
              | exact hw
          · have hb := scanEmptyLRU_bounds s
            unfold SlotsWF at hw
            by_cases hs1 : (scanEmptyLRU s).1 ≥ 0
            · rw [if_pos hs1]
              by_cases hn : (getSlot s (scanEmptyLRU s).1.toNat).isNone
              · rw [if_pos hn, getSlot_bumpUse,
                  getSlot_setSlot_self _ _ _ (by rw [hw]; exact hb.1 hs1)]
                rfl
              · rw [if_neg hn, getSlot_bumpUse]
                rcases hx : getSlot s (scanEmptyLRU s).1.toNat with _ | d
                · rw [hx] at hn
                  simp at hn
                · rfl
            · rw [if_neg hs1]
              by_cases hn : (getSlot s (scanEmptyLRU s).2).isNone
              · rw [if_pos hn, getSlot_bumpUse,
                  getSlot_setSlot_self _ _ _ (by rw [hw]; exact hb.2)]
                rfl
              · rw [if_neg hn, getSlot_bumpUse]
                rcases hx : getSlot s (scanEmptyLRU s).2 with _ | d
                · rw [hx] at hn
                  simp at hn
                · rfl

/-- What a completed GetFrame call guarantees: the latch is never
cleared and the call returns null exactly when the ordinal is out of
range or a failure event was logged. -/
theorem getFrame_runOk (file : AudioFile) (idx : List FrameInfo) :
    ∀ fuel s n hint res s2, SlotsWF s → getFrame file idx fuel s n hint = some (res, s2) →
    SlotsWF s2 ∧ (s.linearMode = true → s2.linearMode = true) ∧
    ∃ dl, s2.log = dl ++ s.log ∧
      (res = none ↔ (n < 0 ∨ n ≥ (idx.length : Int)) ∨ ∃ e ∈ dl, failEv idx e = true) := by
  intro fuel s n hint res s2 hw h
  cases fuel with
  | zero => simp [getFrame] at h
  | succ fuel =>
    simp only [getFrame] at h
    split at h
    · rename_i hrange
      simp only [Option.some.injEq, Prod.mk.injEq] at h
      obtain ⟨h1, h2⟩ := h
      subst h1 h2
      exact ⟨hw, fun ht => ht, [], rfl, iff_of_true rfl (Or.inl hrange)⟩
    · rename_i hrange
      split at h
      · rename_i r hcg
        simp only [Option.some.injEq, Prod.mk.injEq] at h
        obtain ⟨h1, h2⟩ := h
        subst h1 h2
        refine ⟨hw, fun ht => ht, [], rfl, iff_of_false (by simp) ?_⟩
        rintro (hr | ⟨e, he, _⟩)
        · exact hrange hr
        · exact absurd he (List.not_mem_nil e)
      · have hcore : RunOk idx s s2 res := by
          split at h
          · exact (engineRunOk file idx fuel).2.2.2.2.1 _ _ _ _ _ _ _ hw h
          · exact getFrameInternal_runOk file idx fuel _ _ _ _ hw h
        obtain ⟨hw2, hm, dl, hl, hiff⟩ := hcore
        refine ⟨hw2, hm, dl, hl, ?_⟩
        rw [hiff]
        constructor
        · exact fun hx => Or.inr hx
        · rintro (hr | hx)
          · exact absurd hr hrange
          · exact hx

/-- C5 amended: a completed get_frame call returns null exactly when
the ordinal lies outside the frame range or the decode trace of the
call contains a failure: a verification step on a never-seeked decoder
whose decoded frame was missing or whose digest differed from the
indexed digest at the current ordinal (not necessarily at n itself), or
a linear decode that ran out of frames before producing n.  In every
other completed case a frame is returned. -/
theorem c5_get_frame_null_amended (file : AudioFile) (idx : List FrameInfo) (fuel : Nat)
    (s : EngineState) (n : Int) (hint : Bool) (res : Option DecFrame) (s2 : EngineState)
    (hw : SlotsWF s) (hlog : s.log = [])
    (hrun : getFrame file idx fuel s n hint = some (res, s2)) :
    res = none ↔ (n < 0 ∨ n ≥ (idx.length : Int)) ∨ ∃ e ∈ s2.log, failEv idx e = true := by
  obtain ⟨_, _, dl, hl, hiff⟩ := getFrame_runOk file idx fuel s n hint res s2 hw hrun
  rw [hl, hlog, List.append_nil]
  exact hiff

/-- Instantiation of the amended null characterization at the concrete
stale-index run: the null result coincides with the logged failed
verification at ordinal 1. -/
theorem c5_get_frame_null_amended_witness :
    ((none : Option DecFrame) = none ↔
      ((2 : Int) < 0 ∨ (2 : Int) ≥ (c5idx.length : Int)) ∨
      ∃ e ∈ c5final.log, failEv c5idx e = true) :=
  c5_get_frame_null_amended c5file c5idx 10 c5state 2 false none c5final (by decide) rfl
    (by decide)

/-- C7: SetLinearMode latches linear mode, clears the frame cache and
drops every decoder slot; no completed GetFrame call ever clears the
latch; and with the latch set GetFrameInternal is exactly the linear
path. -/
theorem c7_linear_mode_latch :
    (∀ s : EngineState, s.linearMode = false →
      (setLinearMode s).linearMode = true ∧ (setLinearMode s).cache.data = [] ∧
      (setLinearMode s).cache.size = 0 ∧
      (setLinearMode s).decoders = List.replicate maxVideoSources none) ∧
    (∀ (file : AudioFile) (idx : List FrameInfo) (fuel : Nat) (s : EngineState) (n : Int)
      (hint : Bool) (res : Option DecFrame) (s2 : EngineState), SlotsWF s →
      getFrame file idx fuel s n hint = some (res, s2) →
      s.linearMode = true → s2.linearMode = true) ∧
    (∀ (file : AudioFile) (idx : List FrameInfo) (fuel : Nat) (s : EngineState) (n : Int),
      s.linearMode = true →
      getFrameInternal file idx (fuel + 1) s n =
        getFrameLinearInternal file idx fuel s n (-1) 0 false) := by
  refine ⟨?_, ?_, ?_⟩
  · intro s h
    unfold setLinearMode
    rw [if_neg (by simp [h])]
    exact ⟨rfl, rfl, rfl, rfl⟩
  · intro file idx fuel s n hint res s2 hw hrun ht
    exact (getFrame_runOk file idx fuel s n hint res s2 hw hrun).2.1 ht
  · intro file idx fuel s n h
    simp only [getFrameInternal]
    rw [if_pos h]

/-- Instantiation of the latch claim: latching the concrete post-open
state, a completed latched run keeping the latch, and the latched
dispatch equation. -/
theorem c7_linear_mode_latch_witness :
    ((setLinearMode c5state).linearMode = true ∧ (setLinearMode c5state).cache.data = [] ∧
      (setLinearMode c5state).cache.size = 0 ∧
      (setLinearMode c5state).decoders = List.replicate maxVideoSources none) ∧
    c7final.linearMode = true ∧
    getFrameInternal c5file c5idx (8 + 1) c7state 2 =
      getFrameLinearInternal c5file c5idx 8 c7state 2 (-1) 0 false :=
  ⟨c7_linear_mode_latch.1 c5state rfl,
    c7_linear_mode_latch.2.1 c5file c5idx 10 c7state 2 false none c7final (by decide) (by decide)
      rfl,
    c7_linear_mode_latch.2.2 c5file c5idx 8 c7state 2 rfl⟩

/-- Instantiation of the cache-hit claim at a concrete state caching
frame one. -/
theorem c10_cache_hit_witness :
    getFrame c5file c5idx (5 + 1) c10state 1 true =
      some (some (⟨77, 2, 4⟩ : DecFrame),
        { c10state with cache :=
          { c10state.cache with
            data := (1, (⟨77, 2, 4⟩ : DecFrame)) :: ([(0, ⟨9, 1, 4⟩)] ++ []) } }) :=
  (c10_cache_hit c5file c5idx 5 c10state 1 true (1, ⟨77, 2, 4⟩) [(0, ⟨9, 1, 4⟩)] []
    (by decide) (by decide) (by decide)).1
